import Mathlib

/-!
Verification of the nnfullyconnected.cu / im2row CPU kernels.

The definitions below are a shallow embedding of the source file
`src/matlab/src/bits/nnfullyconnected.cu`:

* the im2row patch transform (`im2row<vl::VLDT_CPU, type>::forward` and
  `::backward`) is embedded with memory buffers as functions `Int → Int`
  (indices are C `ptrdiff_t` values, element values are exact integers),
  the sequentially written output of the forward pass as a `List Int`
  grown in the order of the `*stacked++` writes, and the backward pass as
  explicit state passing of the destination buffer together with the
  read cursor of the `stacked` pointer;
* the fully-connected operator (`FullyConnectedForward` and
  `FullyConnectedBackward`) is embedded by translating its control flow
  literally; the collaborators it calls (the BLAS facade, the element-wise
  copy and the context's all-ones buffer) are not part of the repository
  sources, so they are modelled from the specification, with an oracle
  record fixing the status returned by each primitive call site.
-/

/-- Modelled from the spec (§7): the closed error taxonomy; the source's
`vl::ErrorCode` (`VLE_Success`, ...) is declared outside the given sources. -/
inductive ErrorCode where
  | Success
  | OutOfMemory
  | InvalidArgument
  | BackendFailure
  | Unsupported
deriving DecidableEq

/- ------------------------------------------------------------------ -/
/-  im2row helper functions (im2row_cpu.cpp, "Heper functions")        -/
/- ------------------------------------------------------------------ -/

/-- Source `floor_divide`: C integer division (`Int.tdiv`, truncation toward
zero) adjusted to round toward negative infinity. -/
def floor_divide (a b : Int) : Int :=
  if 0 ≤ a then Int.tdiv a b else Int.tdiv (a - b + 1) b

/-- Source `ceil_divide`: C integer division adjusted to round toward
positive infinity. -/
def ceil_divide (a b : Int) : Int :=
  if 0 ≤ a then Int.tdiv (a + b - 1) b else Int.tdiv a b

/-- Source `static_max`. -/
def static_max (a b : Int) : Int := if a ≥ b then a else b

/-- Source `static_min`. -/
def static_min (a b : Int) : Int := if a ≤ b then a else b

/- ------------------------------------------------------------------ -/
/-  im2row geometry                                                    -/
/- ------------------------------------------------------------------ -/

/-- Geometry arguments of `im2row::forward` / `im2row::backward`. -/
structure Im2RowGeom where
  width : Int
  height : Int
  depth : Int
  windowWidth : Int
  windowHeight : Int
  strideX : Int
  strideY : Int
  padLeft : Int
  padRight : Int
  padTop : Int
  padBottom : Int
  dilateX : Int
  dilateY : Int

/-- Source: `windowExtentX = (windowWidth - 1)*dilateX + 1`. -/
def windowExtentX (g : Im2RowGeom) : Int := (g.windowWidth - 1) * g.dilateX + 1

/-- Source: `windowExtentY = (windowHeight - 1)*dilateY + 1`. -/
def windowExtentY (g : Im2RowGeom) : Int := (g.windowHeight - 1) * g.dilateY + 1

/-- Source: `numPatchesX = (width + padLeft + padRight - windowExtentX)/strideX + 1`
(C truncating division). -/
def numPatchesX (g : Im2RowGeom) : Int :=
  Int.tdiv (g.width + g.padLeft + g.padRight - windowExtentX g) g.strideX + 1

/-- Source: `numPatchesY = (height + padTop + padBottom - windowExtentY)/strideY + 1`. -/
def numPatchesY (g : Im2RowGeom) : Int :=
  Int.tdiv (g.height + g.padTop + g.padBottom - windowExtentY g) g.strideY + 1

/-- Source: `numRows = windowWidth * windowHeight * depth`. -/
def numRows (g : Im2RowGeom) : Int := g.windowWidth * g.windowHeight * g.depth

/-- Source row decomposition: `u = row ; ... ; u %= windowWidth`. -/
def rowU (g : Im2RowGeom) (row : Int) : Int := Int.tmod row g.windowWidth

/-- Source row decomposition: `v = u / windowWidth ; ... ; v %= windowHeight`. -/
def rowV (g : Im2RowGeom) (row : Int) : Int :=
  Int.tmod (Int.tdiv row g.windowWidth) g.windowHeight

/-- Source row decomposition: `z = v / windowHeight` (before the mods). -/
def rowZ (g : Im2RowGeom) (row : Int) : Int :=
  Int.tdiv (Int.tdiv row g.windowWidth) g.windowHeight

/-- Source: `x0 = static_min(numPatchesX, ceil_divide(padLeft - u * dilateX, strideX))`. -/
def boundX0 (g : Im2RowGeom) (u : Int) : Int :=
  static_min (numPatchesX g) (ceil_divide (g.padLeft - u * g.dilateX) g.strideX)

/-- Source: `y0 = static_min(numPatchesY, ceil_divide(padTop - v * dilateY, strideY))`. -/
def boundY0 (g : Im2RowGeom) (v : Int) : Int :=
  static_min (numPatchesY g) (ceil_divide (g.padTop - v * g.dilateY) g.strideY)

/-- Source: `x1 = static_min(numPatchesX, floor_divide(width + padLeft - u * dilateX - 1, strideX) + 1)`. -/
def boundX1 (g : Im2RowGeom) (u : Int) : Int :=
  static_min (numPatchesX g) (floor_divide (g.width + g.padLeft - u * g.dilateX - 1) g.strideX + 1)

/-- Source: `y1 = static_min(numPatchesY, floor_divide(height + padTop - v * dilateY - 1, strideY) + 1)`. -/
def boundY1 (g : Im2RowGeom) (v : Int) : Int :=
  static_min (numPatchesY g) (floor_divide (g.height + g.padTop - v * g.dilateY - 1) g.strideY + 1)

/-- Sampled x coordinate of patch `x` at window offset `u`:
`x_data(x) = x * strideX + u * dilateX - padLeft`. -/
def sampleX (g : Im2RowGeom) (u x : Int) : Int := x * g.strideX + u * g.dilateX - g.padLeft

/-- Sampled y coordinate of patch `y` at window offset `v`:
`y_data(y) = y * strideY + v * dilateY - padTop`. -/
def sampleY (g : Im2RowGeom) (v y : Int) : Int := y * g.strideY + v * g.dilateY - g.padTop

/-- Sampled coordinate of patch `(x,y)` at offset `(u,v)` lies inside
`[0,width) x [0,height)`. -/
def inBoundsXY (g : Im2RowGeom) (u v x y : Int) : Prop :=
  0 ≤ sampleX g u x ∧ sampleX g u x < g.width ∧ 0 ≤ sampleY g v y ∧ sampleY g v y < g.height

instance (g : Im2RowGeom) (u v x y : Int) : Decidable (inBoundsXY g u v x y) := by
  unfold inBoundsXY; infer_instance

/-- Flat address in the volume buffer of the voxel sampled by patch `(x,y)`
at window offset `(u,v,z)`: `(z * height + y_data) * width + x_data`. -/
def targetIndex (g : Im2RowGeom) (u v z x y : Int) : Int :=
  (z * g.height + sampleY g v y) * g.width + sampleX g u x

/- ------------------------------------------------------------------ -/
/-  im2row forward                                                     -/
/- ------------------------------------------------------------------ -/

/-- Run of `n` zeros written by a `*stacked++ = 0` loop bounded by the
integer `n` (no iterations when `n` is not positive). -/
def zrow (n : Int) : List Int := List.replicate n.toNat 0

/-- One `y` iteration of the middle loop of `im2row::forward`: zeros for
`x < x0`, a pointer-advancing copy run for `x0 <= x < x1`, zeros up to
`numPatchesX`. -/
def fwdMidRow (g : Im2RowGeom) (data : Int → Int) (u v z y : Int) : List Int :=
  let x0 := boundX0 g u
  let x1 := boundX1 g u
  let xa := static_max 0 x0
  let ydata := y * g.strideY + v * g.dilateY - g.padTop
  let xdata := xa * g.strideX + u * g.dilateX - g.padLeft
  let b := (z * g.height + ydata) * g.width + xdata
  zrow x0
    ++ (List.range (x1 - xa).toNat).map (fun k : Nat => data (b + (k : Int) * g.strideX))
    ++ zrow (numPatchesX g - static_max xa x1)

/-- One row of the patch matrix as written by `im2row::forward`: all-zero
lines for `y < y0`, middle lines for `y0 <= y < y1`, all-zero lines up to
`numPatchesY`. -/
def fwdRow (g : Im2RowGeom) (data : Int → Int) (row : Int) : List Int :=
  let u := rowU g row
  let v := rowV g row
  let z := rowZ g row
  let y0 := boundY0 g v
  let y1 := boundY1 g v
  let ya := static_max 0 y0
  (List.range y0.toNat).flatMap (fun _ => zrow (numPatchesX g))
    ++ (List.range (y1 - ya).toNat).flatMap (fun j : Nat => fwdMidRow g data u v z (ya + (j : Int)))
    ++ (List.range ((numPatchesY g) - static_max ya y1).toNat).flatMap (fun _ => zrow (numPatchesX g))

/-- The whole stacked patch matrix produced by `im2row::forward`, in the
order the `*stacked++` writes produce it. -/
def im2row_forward (g : Im2RowGeom) (data : Int → Int) : List Int :=
  (List.range (numRows g).toNat).flatMap (fun r : Nat => fwdRow g data (r : Int))

/-- Entry of the stacked matrix at a flat (non-negative) position. -/
def getEntry (m : List Int) (i : Int) : Int := m.getD i.toNat 0

/-- Source `im2row<vl::VLDT_CPU,type>::forward`: fills the stacked matrix
and unconditionally returns `vl::VLE_Success`. -/
def im2row_cpu_forward (g : Im2RowGeom) (data : Int → Int) : ErrorCode × List Int :=
  (ErrorCode.Success, im2row_forward g data)

/- ------------------------------------------------------------------ -/
/-  im2row backward                                                    -/
/- ------------------------------------------------------------------ -/

/-- Effect of `*b += w` on a memory buffer at address `p`. -/
def addAt (f : Int → Int) (p w : Int) : Int → Int :=
  fun q => if q = p then f p + w else f q

/-- The inner accumulation loop of `im2row::backward`:
`for ( ; x < x1 ; ++x) { *b += *stacked++ ; b += strideX ; }`,
running `n` iterations from write address `b` and read cursor `cur`. -/
def bwdCopyLoop (stacked : Int → Int) (sX : Int) : Nat → Int → Int → (Int → Int) → (Int → Int)
  | 0, _, _, data => data
  | Nat.succ n, b, cur, data =>
      bwdCopyLoop stacked sX n (b + sX) (cur + 1) (addAt data b (stacked cur))

/-- One `y` iteration of the middle loop of `im2row::backward`; the state is
the destination buffer together with the read cursor of `stacked`.
Mirrors: `x = static_max(0, x0) ; stacked += x ; for ( ; x < x1 ; ++x) ... ;
stacked += numPatchesX - x`. -/
def bwdMidRow (g : Im2RowGeom) (stacked : Int → Int) (u v z y : Int)
    (st : (Int → Int) × Int) : (Int → Int) × Int :=
  let x0 := boundX0 g u
  let x1 := boundX1 g u
  let xa := static_max 0 x0
  let ydata := y * g.strideY + v * g.dilateY - g.padTop
  let xdata := xa * g.strideX + u * g.dilateX - g.padLeft
  let b := (z * g.height + ydata) * g.width + xdata
  let data2 := bwdCopyLoop stacked g.strideX (x1 - xa).toNat b (st.2 + xa) st.1
  (data2, st.2 + xa + ((x1 - xa).toNat : Int) + (numPatchesX g - static_max xa x1))

/-- One row iteration of `im2row::backward`: advance the cursor over the
leading skipped lines, accumulate the middle lines, advance the cursor over
the trailing skipped lines. -/
def bwdRow (g : Im2RowGeom) (stacked : Int → Int) (row : Int)
    (st : (Int → Int) × Int) : (Int → Int) × Int :=
  let u := rowU g row
  let v := rowV g row
  let z := rowZ g row
  let y0 := boundY0 g v
  let y1 := boundY1 g v
  let ya := static_max 0 y0
  let st1 : (Int → Int) × Int := (st.1, st.2 + numPatchesX g * static_max 0 ya)
  let st2 := (List.range (y1 - ya).toNat).foldl
    (fun (s : (Int → Int) × Int) (j : Nat) => bwdMidRow g stacked u v z (ya + (j : Int)) s) st1
  (st2.1, st2.2 + numPatchesX g * (numPatchesY g - static_max ya y1))

/-- The whole of `im2row::backward`: the destination buffer starts zeroed
(`memset(data, 0, ...)`) and the cursor at the beginning of `stacked`. -/
def im2row_backward_run (g : Im2RowGeom) (stacked : Int → Int) : (Int → Int) × Int :=
  (List.range (numRows g).toNat).foldl (fun (s : (Int → Int) × Int) (r : Nat) => bwdRow g stacked (r : Int) s) (fun _ => 0, 0)

/-- Source `im2row<vl::VLDT_CPU,type>::backward`: scatter-accumulates and
unconditionally returns `vl::VLE_Success`. -/
def im2row_cpu_backward (g : Im2RowGeom) (stacked : Int → Int) :
    ErrorCode × ((Int → Int) × Int) :=
  (ErrorCode.Success, im2row_backward_run g stacked)

/-- Number of forward-pass events (row, patch-y, patch-x) whose in-bounds
sampled voxel is the flat address `p`. -/
def touchCount (g : Im2RowGeom) (p : Int) : Nat :=
  (((Finset.range (numRows g).toNat) ×ˢ
      ((Finset.range (numPatchesY g).toNat) ×ˢ (Finset.range (numPatchesX g).toNat))).filter
    (fun e =>
      inBoundsXY g (rowU g (e.1 : Int)) (rowV g (e.1 : Int)) (e.2.2 : Int) (e.2.1 : Int) ∧
      targetIndex g (rowU g (e.1 : Int)) (rowV g (e.1 : Int)) (rowZ g (e.1 : Int))
        (e.2.2 : Int) (e.2.1 : Int) = p)).card

/-- Backward applied to the output of forward (patch accumulate after patch
extract), as a function on volume addresses. -/
def roundTrip (g : Im2RowGeom) (v : Int → Int) : Int → Int :=
  (im2row_backward_run g (fun i => getEntry (im2row_forward g v) i)).1

/- ------------------------------------------------------------------ -/
/-  Fully-connected operator: collaborators modelled from the spec     -/
/- ------------------------------------------------------------------ -/

/-- Element of a column-major matrix with leading dimension `ld`, optionally
transposed: `op(M)[r,c]`. -/
def opEl (trans : Bool) (m : Int → Int) (ld r c : Int) : Int :=
  if trans then m (c + r * ld) else m (r + c * ld)

/-- Modelled from the spec (§6): `generalMultiply(transposeA, transposeB, m,
n, k, alpha, A, lda, B, ldb, beta, C, ldc)` — the column-major GEMM
`C = alpha * op(A) * op(B) + beta * C` of `blashelper.hpp`, which is not
among the given sources. Only entries `(i,j)` with `i < m`, `j < n` of the
`C` buffer are updated. -/
def gemmRun (transA transB : Bool) (m n k : Int) (alpha : Int) (a : Int → Int) (lda : Int)
    (bm : Int → Int) (ldb : Int) (beta : Int) (c : Int → Int) (ldc : Int) : Int → Int :=
  fun idx =>
    if 0 < ldc ∧ 0 ≤ idx ∧ idx % ldc < m ∧ idx / ldc < n then
      alpha * (Finset.range k.toNat).sum
        (fun l : Nat => opEl transA a lda (idx % ldc) (l : Int) * opEl transB bm ldb (l : Int) (idx / ldc))
        + beta * c idx
    else c idx

/-- Modelled from the spec (§6): `matrixVectorMultiply(transpose, m, n,
alpha, A, lda, x, incx, beta, y, incy)` — the column-major GEMV
`y = alpha * op(A) * x + beta * y` of `blashelper.hpp`, which is not among
the given sources. -/
def gemvRun (trans : Bool) (m n : Int) (alpha : Int) (a : Int → Int) (lda : Int)
    (x : Int → Int) (incx : Int) (beta : Int) (y : Int → Int) (incy : Int) : Int → Int :=
  fun idx =>
    if 0 < incy ∧ 0 ≤ idx ∧ idx % incy = 0 ∧ idx / incy < (if trans then n else m) then
      alpha * (Finset.range (if trans then m else n).toNat).sum
        (fun l : Nat => opEl trans a lda (idx / incy) (l : Int) * x ((l : Int) * incx))
        + beta * y idx
    else y idx

/-- Modelled from the spec (§6): `elementwiseCopy(dst, src, count)` — the
strided-copy primitive of `copy.hpp`, which is not among the given sources. -/
def copyRun (dst src : Int → Int) (count : Int) : Int → Int :=
  fun idx => if 0 ≤ idx ∧ idx < count then src idx else dst idx

/-- Tensor as the operator sees it: a memory buffer, a 4-D shape, and the
"empty" presence sentinel tested by `if (filter)`-style checks. -/
structure FCTensor where
  memory : Int → Int
  width : Int
  height : Int
  depth : Int
  size : Int
  present : Bool

/-- Source `Tensor::getNumElements()`. -/
def FCTensor.numElements (t : FCTensor) : Int := t.width * t.height * t.depth * t.size

/-- Primitive call sites the operator reaches, recorded in order. -/
inductive FCCall where
  | gemv
  | gemm
  | copy
  | getAllOnes
deriving DecidableEq

/-- Modelled from the spec (§6/§7): statuses the external collaborators
return at each primitive call site of `FullyConnectedForward`, plus whether
the context's all-ones request succeeds and the context's last error. -/
structure ForwardOracle where
  gemvStatus : ErrorCode
  gemmStatus : ErrorCode
  copyStatus : ErrorCode
  allOnesOk : Bool
  lastError : ErrorCode
  biasGemmStatus : ErrorCode

/-- Modelled from the spec (§6/§7): statuses the external collaborators
return at each primitive call site of `FullyConnectedBackward`. The copy
call's status (`copyStatus`) exists but the source discards it. -/
structure BackwardOracle where
  derFilterStatus : ErrorCode
  derInputStatus : ErrorCode
  copyStatus : ErrorCode
  allOnesOk : Bool
  lastError : ErrorCode
  biasGemmStatus : ErrorCode

/-- The `if (bias)` tail of `FullyConnectedForward`: request the all-ones
buffer (on NULL, return `getLastError()`), then accumulate the outer product
`bias * onesᵀ` into the output with a beta-1 GEMM. `err` is the value of
the `error` variable flowing into this step (the unchecked copy status in
the no-filter branch, `VLE_Success` otherwise); the GEMM's status assignment
overwrites it. -/
def fcForwardBias (orc : ForwardOracle) (input bias : FCTensor) (err : ErrorCode)
    (out1 : Int → Int) (calls : List FCCall) : ErrorCode × (Int → Int) × List FCCall :=
  if bias.present then
    if orc.allOnesOk then
      (orc.biasGemmStatus,
       gemmRun false false (FCTensor.numElements bias) input.size 1 1 bias.memory
         (FCTensor.numElements bias) (fun _ => 1) 1 1 out1 (FCTensor.numElements bias),
       calls ++ [FCCall.getAllOnes, FCCall.gemm])
    else
      (orc.lastError, out1, calls ++ [FCCall.getAllOnes])
  else
    (err, out1, calls)

/-- Source `FullyConnectedForward::operator()`: filter present means a
`filterᵀ * input` projection (GEMV for a single image, GEMM otherwise, both
checked and early-returning on failure); filter absent means an element-wise
copy whose status is recorded in `error` but not checked before the bias
step. Returns the status, the output buffer, and the primitive calls made. -/
def fcForward (orc : ForwardOracle) (output input filter bias : FCTensor) :
    ErrorCode × (Int → Int) × List FCCall :=
  if filter.present then
    let filterVolume := filter.height * filter.width * filter.depth
    if input.size = 1 then
      let out1 := gemvRun true filterVolume filter.size 1 filter.memory filterVolume
        input.memory 1 0 output.memory 1
      if orc.gemvStatus = ErrorCode.Success then
        fcForwardBias orc input bias ErrorCode.Success out1 [FCCall.gemv]
      else (orc.gemvStatus, out1, [FCCall.gemv])
    else
      let out1 := gemmRun true false filter.size input.size filterVolume 1 filter.memory
        filterVolume input.memory filterVolume 0 output.memory filter.size
      if orc.gemmStatus = ErrorCode.Success then
        fcForwardBias orc input bias ErrorCode.Success out1 [FCCall.gemm]
      else (orc.gemmStatus, out1, [FCCall.gemm])
  else
    let out1 := copyRun output.memory input.memory (FCTensor.numElements input)
    fcForwardBias orc input bias orc.copyStatus out1 [FCCall.copy]

/-- Result of the backward pass: status, the three gradient buffers, and the
primitive calls made. -/
structure BackwardResult where
  status : ErrorCode
  derInput : Int → Int
  derFilter : Int → Int
  derBias : Int → Int
  calls : List FCCall

/-- The `if (derBias)` tail of `FullyConnectedBackward`: request the
all-ones buffer (on NULL, return `getLastError()`), then compute
`derBias = ones * derOutputᵀ` with a 1-row GEMM. -/
def fcBackwardBias (orc : BackwardOracle) (derBias derOutput : FCTensor)
    (dI dF : Int → Int) (calls : List FCCall) : BackwardResult :=
  if derBias.present then
    if orc.allOnesOk then
      ⟨orc.biasGemmStatus, dI, dF,
       gemmRun false true 1 derOutput.depth derOutput.size 1 (fun _ => 1) 1
         derOutput.memory derOutput.depth 0 derBias.memory 1,
       calls ++ [FCCall.getAllOnes, FCCall.gemm]⟩
    else ⟨orc.lastError, dI, dF, derBias.memory, calls ++ [FCCall.getAllOnes]⟩
  else ⟨ErrorCode.Success, dI, dF, derBias.memory, calls⟩

/-- The `if (derInput)` step of `FullyConnectedBackward` (filter present):
`derInput = filter * derOutput`, checked and early-returning on failure. -/
def fcBackwardInputStep (orc : BackwardOracle) (derInput derBias input filter derOutput : FCTensor)
    (dF : Int → Int) (calls : List FCCall) : BackwardResult :=
  let filterVolume := filter.height * filter.width * filter.depth
  if derInput.present then
    let dI := gemmRun false false filterVolume input.size filter.size 1 filter.memory
      filterVolume derOutput.memory filter.size 0 derInput.memory filterVolume
    if orc.derInputStatus = ErrorCode.Success then
      fcBackwardBias orc derBias derOutput dI dF (calls ++ [FCCall.gemm])
    else ⟨orc.derInputStatus, dI, dF, derBias.memory, calls ++ [FCCall.gemm]⟩
  else fcBackwardBias orc derBias derOutput derInput.memory dF calls

/-- Source `FullyConnectedBackward::operator()`: with a filter, the
derFilter and derInput GEMMs run only for present slots and early-return on
failure; without a filter, derInput is unconditionally overwritten by a copy
of derOutput whose returned status is discarded. The derBias step runs
whenever derBias is present. -/
def fcBackward (orc : BackwardOracle) (derInput derFilter derBias input filter derOutput : FCTensor) :
    BackwardResult :=
  if filter.present then
    let filterVolume := filter.height * filter.width * filter.depth
    if derFilter.present then
      let dF := gemmRun false true filterVolume filter.size input.size 1 input.memory
        filterVolume derOutput.memory filter.size 0 derFilter.memory filterVolume
      if orc.derFilterStatus = ErrorCode.Success then
        fcBackwardInputStep orc derInput derBias input filter derOutput dF [FCCall.gemm]
      else ⟨orc.derFilterStatus, derInput.memory, dF, derBias.memory, [FCCall.gemm]⟩
    else fcBackwardInputStep orc derInput derBias input filter derOutput derFilter.memory []
  else
    let dI := copyRun derInput.memory derOutput.memory (FCTensor.numElements derOutput)
    fcBackwardBias orc derBias derOutput dI derFilter.memory [FCCall.copy]

/- ------------------------------------------------------------------ -/
/-  Basic helper lemmas                                                -/
/- ------------------------------------------------------------------ -/

theorem static_min_eq (a b : Int) : static_min a b = min a b := by
  unfold static_min; split <;> omega

theorem static_max_eq (a b : Int) : static_max a b = max a b := by
  unfold static_max; split <;> omega

theorem le_floor_divide_iff (a b x : Int) (hb : 0 < b) :
    x ≤ floor_divide a b ↔ x * b ≤ a := by
  unfold floor_divide
  split
  case isTrue h =>
    rw [Int.tdiv_eq_ediv h (le_of_lt hb), Int.le_ediv_iff_mul_le hb]
  case isFalse h =>
    have hrw : a - b + 1 = -(b - 1 - a) := by ring
    rw [hrw, Int.neg_tdiv, Int.tdiv_eq_ediv (by omega) (le_of_lt hb)]
    have fact1 : ((b - 1 - a) / b) * b ≤ b - 1 - a :=
      (Int.le_ediv_iff_mul_le hb).mp le_rfl
    have fact2 : b - 1 - a < ((b - 1 - a) / b + 1) * b :=
      Int.lt_ediv_add_one_mul_self (b - 1 - a) hb
    constructor
    · intro hx
      have := mul_le_mul_of_nonneg_right hx (le_of_lt hb)
      nlinarith
    · intro hx
      by_contra hcon
      push_neg at hcon
      have hx2 : -((b - 1 - a) / b) + 1 ≤ x := by omega
      have := mul_le_mul_of_nonneg_right hx2 (le_of_lt hb)
      nlinarith

theorem ceil_divide_le_iff (a b x : Int) (hb : 0 < b) :
    ceil_divide a b ≤ x ↔ a ≤ x * b := by
  unfold ceil_divide
  split
  case isTrue h =>
    rw [Int.tdiv_eq_ediv (by omega) (le_of_lt hb)]
    have fact1 : ((a + b - 1) / b) * b ≤ a + b - 1 :=
      (Int.le_ediv_iff_mul_le hb).mp le_rfl
    have fact2 : a + b - 1 < ((a + b - 1) / b + 1) * b :=
      Int.lt_ediv_add_one_mul_self (a + b - 1) hb
    constructor
    · intro hx
      have := mul_le_mul_of_nonneg_right hx (le_of_lt hb)
      nlinarith
    · intro hx
      by_contra hcon
      push_neg at hcon
      have hx2 : x + 1 ≤ (a + b - 1) / b := by omega
      have := mul_le_mul_of_nonneg_right hx2 (le_of_lt hb)
      nlinarith
  case isFalse h =>
    have hrw : a = -(-a) := by ring
    rw [hrw, Int.neg_tdiv, Int.tdiv_eq_ediv (by omega) (le_of_lt hb)]
    have fact1 : ((-a) / b) * b ≤ -a := (Int.le_ediv_iff_mul_le hb).mp le_rfl
    have fact2 : -a < ((-a) / b + 1) * b :=
      Int.lt_ediv_add_one_mul_self (-a) hb
    constructor
    · intro hx
      have := mul_le_mul_of_nonneg_right hx (le_of_lt hb)
      nlinarith
    · intro hx
      by_contra hcon
      push_neg at hcon
      have hx2 : x ≤ -((-a) / b) - 1 := by omega
      have := mul_le_mul_of_nonneg_right hx2 (le_of_lt hb)
      nlinarith

theorem boundX0_le (g : Im2RowGeom) (u : Int) : boundX0 g u ≤ numPatchesX g := by
  unfold boundX0; rw [static_min_eq]; exact min_le_left _ _

theorem boundX1_le (g : Im2RowGeom) (u : Int) : boundX1 g u ≤ numPatchesX g := by
  unfold boundX1; rw [static_min_eq]; exact min_le_left _ _

theorem boundY0_le (g : Im2RowGeom) (v : Int) : boundY0 g v ≤ numPatchesY g := by
  unfold boundY0; rw [static_min_eq]; exact min_le_left _ _

theorem boundY1_le (g : Im2RowGeom) (v : Int) : boundY1 g v ≤ numPatchesY g := by
  unfold boundY1; rw [static_min_eq]; exact min_le_left _ _

theorem mem_boundX_iff (g : Im2RowGeom) (u x : Int) (hs : 0 < g.strideX)
    (hx0 : 0 ≤ x) (hx1 : x < numPatchesX g) :
    (boundX0 g u ≤ x ∧ x < boundX1 g u) ↔
      (0 ≤ sampleX g u x ∧ sampleX g u x < g.width) := by
  unfold boundX0 boundX1 sampleX
  rw [static_min_eq, static_min_eq]
  have hc := ceil_divide_le_iff (g.padLeft - u * g.dilateX) g.strideX x hs
  have hf := le_floor_divide_iff (g.width + g.padLeft - u * g.dilateX - 1) g.strideX x hs
  constructor
  · rintro ⟨h1, h2⟩
    have hcx : ceil_divide (g.padLeft - u * g.dilateX) g.strideX ≤ x := by
      rcases min_le_iff.mp h1 with h | h
      · omega
      · exact h
    have hfx : x ≤ floor_divide (g.width + g.padLeft - u * g.dilateX - 1) g.strideX := by
      have := lt_of_lt_of_le h2 (min_le_right _ _)
      omega
    have p1 := hc.mp hcx
    have p2 := hf.mp hfx
    constructor <;> linarith
  · rintro ⟨h1, h2⟩
    have p1 : g.padLeft - u * g.dilateX ≤ x * g.strideX := by linarith
    have p2 : x * g.strideX ≤ g.width + g.padLeft - u * g.dilateX - 1 := by linarith
    have hcx := hc.mpr p1
    have hfx := hf.mpr p2
    exact ⟨le_trans (min_le_right _ _) hcx, lt_min hx1 (by omega)⟩

theorem mem_boundY_iff (g : Im2RowGeom) (v y : Int) (hs : 0 < g.strideY)
    (hy0 : 0 ≤ y) (hy1 : y < numPatchesY g) :
    (boundY0 g v ≤ y ∧ y < boundY1 g v) ↔
      (0 ≤ sampleY g v y ∧ sampleY g v y < g.height) := by
  unfold boundY0 boundY1 sampleY
  rw [static_min_eq, static_min_eq]
  have hc := ceil_divide_le_iff (g.padTop - v * g.dilateY) g.strideY y hs
  have hf := le_floor_divide_iff (g.height + g.padTop - v * g.dilateY - 1) g.strideY y hs
  constructor
  · rintro ⟨h1, h2⟩
    have hcx : ceil_divide (g.padTop - v * g.dilateY) g.strideY ≤ y := by
      rcases min_le_iff.mp h1 with h | h
      · omega
      · exact h
    have hfx : y ≤ floor_divide (g.height + g.padTop - v * g.dilateY - 1) g.strideY := by
      have := lt_of_lt_of_le h2 (min_le_right _ _)
      omega
    have p1 := hc.mp hcx
    have p2 := hf.mp hfx
    constructor <;> linarith
  · rintro ⟨h1, h2⟩
    have p1 : g.padTop - v * g.dilateY ≤ y * g.strideY := by linarith
    have p2 : y * g.strideY ≤ g.height + g.padTop - v * g.dilateY - 1 := by linarith
    have hcx := hc.mpr p1
    have hfx := hf.mpr p2
    exact ⟨le_trans (min_le_right _ _) hcx, lt_min hy1 (by omega)⟩

theorem getD_replicate_zero (n i : Nat) : (List.replicate n (0:Int)).getD i 0 = 0 := by
  rw [List.getD_eq_getElem?_getD, List.getElem?_replicate]
  split <;> rfl

theorem getD_range_map (f : Nat → Int) (n i : Nat) (h : i < n) :
    ((List.range n).map f).getD i 0 = f i := by
  rw [List.getD_eq_getElem?_getD, List.getElem?_map, List.getElem?_range h]
  rfl

theorem length_flatMap_const {α : Type} (l : List α) (f : α → List Int) (L : Nat)
    (h : ∀ a ∈ l, (f a).length = L) : (l.flatMap f).length = l.length * L := by
  induction l with
  | nil => simp
  | cons a t ih =>
    simp only [List.flatMap_cons, List.length_append, List.length_cons]
    rw [h a (by simp), ih (fun b hb => h b (by simp [hb]))]
    ring

theorem getD_flatMap_range (f : Nat → List Int) (L : Nat) :
    ∀ (n q s : Nat), (∀ r, r < n → (f r).length = L) → q < n → s < L →
    ((List.range n).flatMap f).getD (q * L + s) 0 = (f q).getD s 0 := by
  intro n
  induction n with
  | zero => intro q s _ hq _; omega
  | succ m ih =>
    intro q s hf hq hs
    rw [List.range_succ, List.flatMap_append]
    have hlen : ((List.range m).flatMap f).length = m * L := by
      rw [length_flatMap_const (List.range m) f L
        (fun a ha => hf a (by simp only [List.mem_range] at ha; omega))]
      simp
    rcases Nat.lt_or_ge q m with hqm | hqm
    · rw [List.getD_append]
      · exact ih q s (fun r hr => hf r (by omega)) hqm hs
      · rw [hlen]
        calc q * L + s < q * L + L := by omega
          _ = (q + 1) * L := by ring
          _ ≤ m * L := Nat.mul_le_mul_right L (by omega)
    · have hqe : q = m := by omega
      subst hqe
      rw [List.getD_append_right]
      · simp only [List.flatMap_cons, List.flatMap_nil, List.append_nil, hlen]
        congr 1
        omega
      · rw [hlen]; omega

theorem sum_shift_indicator (G : Nat → Int) :
    ∀ (c a N : Nat), a + c ≤ N →
    (Finset.range c).sum (fun k => G (a + k))
      = (Finset.range N).sum (fun x => if a ≤ x ∧ x < a + c then G x else 0) := by
  intro c
  induction c with
  | zero =>
    intro a N _
    rw [Finset.sum_range_zero]
    symm
    apply Finset.sum_eq_zero
    intro x _
    rw [if_neg]
    omega
  | succ m ih =>
    intro a N h
    rw [Finset.sum_range_succ, ih a N (by omega)]
    have key : ∀ x ∈ Finset.range N,
        (if a ≤ x ∧ x < a + (m + 1) then G x else 0)
          = (if a ≤ x ∧ x < a + m then G x else 0) + (if x = a + m then G x else 0) := by
      intro x _
      by_cases h1 : a ≤ x ∧ x < a + m
      · rw [if_pos (by omega), if_pos h1, if_neg (by omega)]; ring
      · by_cases h2 : x = a + m
        · rw [if_pos (by omega), if_neg h1, if_pos h2, h2]; ring
        · rw [if_neg (by omega), if_neg h1, if_neg h2]; ring
    rw [Finset.sum_congr rfl key, Finset.sum_add_distrib,
      Finset.sum_ite_eq' (Finset.range N) (a + m) G,
      if_pos (Finset.mem_range.mpr (by omega))]

theorem grid_index_lt (x y X Y : Nat) (hx : x < X) (hy : y < Y) : y * X + x < X * Y := by
  calc y * X + x < y * X + X := by omega
    _ = (y + 1) * X := by ring
    _ ≤ Y * X := Nat.mul_le_mul_right X (by omega)
    _ = X * Y := Nat.mul_comm Y X

theorem foldl_range_snd (f : ((Int → Int) × Int) → Nat → ((Int → Int) × Int)) (c : Int)
    (hF : ∀ st j, (f st j).2 = st.2 + c) :
    ∀ (n : Nat) (st0 : (Int → Int) × Int),
    ((List.range n).foldl f st0).2 = st0.2 + (n : Int) * c := by
  intro n
  induction n with
  | zero => intro st0; simp
  | succ m ih =>
    intro st0
    rw [List.range_succ, List.foldl_append]
    simp only [List.foldl_cons, List.foldl_nil]
    rw [hF, ih]
    push_cast
    ring

theorem foldl_range_char (f : ((Int → Int) × Int) → Nat → ((Int → Int) × Int)) (c : Int)
    (contrib : Nat → Int → Int) (p : Int)
    (hF : ∀ st j, (f st j).1 p = st.1 p + contrib j st.2 ∧ (f st j).2 = st.2 + c) :
    ∀ (n : Nat) (st0 : (Int → Int) × Int),
    ((List.range n).foldl f st0).1 p
      = st0.1 p + (Finset.range n).sum (fun j => contrib j (st0.2 + (j : Int) * c)) := by
  intro n
  induction n with
  | zero => intro st0; simp
  | succ m ih =>
    intro st0
    rw [List.range_succ, List.foldl_append]
    simp only [List.foldl_cons, List.foldl_nil]
    obtain ⟨hF1, hF2⟩ := hF ((List.range m).foldl f st0) m
    rw [hF1, ih, foldl_range_snd f c (fun st j => (hF st j).2) m st0,
      Finset.sum_range_succ]
    ring

/- ------------------------------------------------------------------ -/
/-  Forward characterization                                           -/
/- ------------------------------------------------------------------ -/

theorem fwdMidRow_getD (g : Im2RowGeom) (data : Int → Int) (u v z y : Int)
    (xn : Nat) (hx : (xn : Int) < numPatchesX g) :
    (fwdMidRow g data u v z y).getD xn 0
      = if boundX0 g u ≤ (xn : Int) ∧ (xn : Int) < boundX1 g u
        then data (targetIndex g u v z (xn : Int) y) else 0 := by
  have h0 := boundX0_le g u
  have h1 := boundX1_le g u
  simp only [fwdMidRow, static_max_eq]
  rw [List.append_assoc]
  set x0 := boundX0 g u with hx0def
  set x1 := boundX1 g u with hx1def
  rcases Nat.lt_or_ge xn x0.toNat with hc1 | hc1
  · rw [List.getD_append _ _ _ _ (by simp only [zrow, List.length_replicate]; omega)]
    simp only [zrow]
    rw [getD_replicate_zero, if_neg (by omega)]
  · rw [List.getD_append_right _ _ _ _ (by simp only [zrow, List.length_replicate]; omega)]
    simp only [zrow, List.length_replicate]
    rcases Nat.lt_or_ge xn (x0.toNat + (x1 - max 0 x0).toNat) with hc2 | hc2
    · rw [List.getD_append _ _ _ _ (by simp only [List.length_map, List.length_range]; omega)]
      rw [getD_range_map _ _ _ (by omega)]
      rw [if_pos (by omega)]
      congr 1
      have hcast : ((xn - x0.toNat : Nat) : Int) = (xn : Int) - max 0 x0 := by omega
      rw [hcast]
      unfold targetIndex sampleX sampleY
      ring
    · rw [List.getD_append_right _ _ _ _ (by simp only [List.length_map, List.length_range]; omega)]
      simp only [zrow, List.length_map, List.length_range]
      rw [getD_replicate_zero, if_neg (by omega)]

theorem fwdMidRow_length (g : Im2RowGeom) (data : Int → Int) (u v z y : Int)
    (hpx : 0 ≤ numPatchesX g) :
    (fwdMidRow g data u v z y).length = (numPatchesX g).toNat := by
  have h0 := boundX0_le g u
  have h1 := boundX1_le g u
  simp only [fwdMidRow, static_max_eq, zrow, List.length_append, List.length_replicate,
    List.length_map, List.length_range]
  omega

theorem fwdRow_restructure (g : Im2RowGeom) (data : Int → Int) (row : Int)
    (hpy : 0 ≤ numPatchesY g) :
    fwdRow g data row = (List.range (numPatchesY g).toNat).flatMap (fun yn =>
      if (yn : Int) < static_max 0 (boundY0 g (rowV g row)) then zrow (numPatchesX g)
      else if (yn : Int) < boundY1 g (rowV g row)
      then fwdMidRow g data (rowU g row) (rowV g row) (rowZ g row) (yn : Int)
      else zrow (numPatchesX g)) := by
  have hy0 := boundY0_le g (rowV g row)
  have hy1 := boundY1_le g (rowV g row)
  simp only [fwdRow, static_max_eq]
  set y0 := boundY0 g (rowV g row) with hy0def
  set y1 := boundY1 g (rowV g row) with hy1def
  have hsplit : (numPatchesY g).toNat
      = y0.toNat + ((y1 - max 0 y0).toNat + (numPatchesY g - max (max 0 y0) y1).toNat) := by
    omega
  rw [hsplit, List.range_add, List.range_add, List.map_append, List.map_map,
    List.flatMap_append, List.flatMap_append, List.flatMap_map, List.flatMap_map,
    ← List.append_assoc]
  congr 1
  congr 1
  · apply List.flatMap_congr
    intro yn hyn
    simp only [List.mem_range] at hyn
    rw [if_pos (by omega)]
  · apply List.flatMap_congr
    intro j hj
    simp only [List.mem_range] at hj
    rw [if_neg (by omega), if_pos (by omega)]
    congr 1
    omega
  · apply List.flatMap_congr
    intro j hj
    simp only [List.mem_range] at hj
    simp only [Function.comp]
    rw [if_neg (by omega)]
    rw [if_neg (by omega)]

theorem fwdRow_length (g : Im2RowGeom) (data : Int → Int) (row : Int)
    (hpx : 0 ≤ numPatchesX g) (hpy : 0 ≤ numPatchesY g) :
    (fwdRow g data row).length = (numPatchesX g).toNat * (numPatchesY g).toNat := by
  rw [fwdRow_restructure g data row hpy]
  have hlen : ∀ yn ∈ List.range (numPatchesY g).toNat,
      ((fun yn : Nat =>
        if (yn : Int) < static_max 0 (boundY0 g (rowV g row)) then zrow (numPatchesX g)
        else if (yn : Int) < boundY1 g (rowV g row)
        then fwdMidRow g data (rowU g row) (rowV g row) (rowZ g row) (yn : Int)
        else zrow (numPatchesX g)) yn).length = (numPatchesX g).toNat := by
    intro yn _
    simp only
    split
    · simp [zrow]
    · split
      · exact fwdMidRow_length g data _ _ _ _ hpx
      · simp [zrow]
  rw [length_flatMap_const _ _ ((numPatchesX g).toNat) hlen]
  simp only [List.length_range]
  ring

theorem im2row_forward_entry (g : Im2RowGeom) (data : Int → Int)
    (hsx : 0 < g.strideX) (hsy : 0 < g.strideY)
    (hpx : 0 ≤ numPatchesX g) (hpy : 0 ≤ numPatchesY g)
    (rn yn xn : Nat) (hr : (rn : Int) < numRows g)
    (hy : (yn : Int) < numPatchesY g) (hx : (xn : Int) < numPatchesX g) :
    (im2row_forward g data).getD
        (rn * ((numPatchesX g).toNat * (numPatchesY g).toNat)
          + (yn * (numPatchesX g).toNat + xn)) 0
      = if inBoundsXY g (rowU g (rn : Int)) (rowV g (rn : Int)) (xn : Int) (yn : Int)
        then data (targetIndex g (rowU g (rn : Int)) (rowV g (rn : Int)) (rowZ g (rn : Int))
          (xn : Int) (yn : Int))
        else 0 := by
  have hxn : xn < (numPatchesX g).toNat := by omega
  have hyn : yn < (numPatchesY g).toNat := by omega
  have hbx := mem_boundX_iff g (rowU g (rn : Int)) (xn : Int) hsx (Int.natCast_nonneg xn) hx
  have hby := mem_boundY_iff g (rowV g (rn : Int)) (yn : Int) hsy (Int.natCast_nonneg yn) hy
  rw [im2row_forward]
  rw [getD_flatMap_range (fun r : Nat => fwdRow g data (r : Int))
      ((numPatchesX g).toNat * (numPatchesY g).toNat)
      (numRows g).toNat rn (yn * (numPatchesX g).toNat + xn)
      (fun r _ => fwdRow_length g data (r : Int) hpx hpy) (by omega)
      (grid_index_lt xn yn _ _ hxn hyn)]
  rw [fwdRow_restructure g data (rn : Int) hpy]
  rw [getD_flatMap_range _ ((numPatchesX g).toNat) ((numPatchesY g).toNat) yn xn
      (fun r _ => by
        split
        · simp [zrow]
        · split
          · exact fwdMidRow_length g data _ _ _ _ hpx
          · simp [zrow]) hyn hxn]
  by_cases hA : (yn : Int) < static_max 0 (boundY0 g (rowV g (rn : Int)))
  · have hnin : ¬ inBoundsXY g (rowU g (rn : Int)) (rowV g (rn : Int)) (xn : Int) (yn : Int) := by
      unfold inBoundsXY
      rw [static_max_eq] at hA
      intro hin
      have := hby.mpr ⟨hin.2.2.1, hin.2.2.2⟩
      omega
    rw [if_pos hA]
    simp only [zrow]
    rw [getD_replicate_zero, if_neg hnin]
  · rw [if_neg hA]
    by_cases hB : (yn : Int) < boundY1 g (rowV g (rn : Int))
    · rw [if_pos hB]
      rw [fwdMidRow_getD g data _ _ _ _ xn hx]
      have hyc : boundY0 g (rowV g (rn : Int)) ≤ (yn : Int)
          ∧ (yn : Int) < boundY1 g (rowV g (rn : Int)) := by
        rw [static_max_eq] at hA
        exact ⟨by omega, hB⟩
      have hys := hby.mp hyc
      have hiff : (boundX0 g (rowU g (rn : Int)) ≤ (xn : Int)
            ∧ (xn : Int) < boundX1 g (rowU g (rn : Int)))
          ↔ inBoundsXY g (rowU g (rn : Int)) (rowV g (rn : Int)) (xn : Int) (yn : Int) := by
        unfold inBoundsXY
        constructor
        · intro hxc
          have hxs := hbx.mp hxc
          exact ⟨hxs.1, hxs.2, hys.1, hys.2⟩
        · intro hin
          exact hbx.mpr ⟨hin.1, hin.2.1⟩
      exact if_congr hiff rfl rfl
    · rw [if_neg hB]
      have hnin : ¬ inBoundsXY g (rowU g (rn : Int)) (rowV g (rn : Int)) (xn : Int) (yn : Int) := by
        unfold inBoundsXY
        intro hin
        have := hby.mpr ⟨hin.2.2.1, hin.2.2.2⟩
        omega
      simp only [zrow]
      rw [getD_replicate_zero, if_neg hnin]

theorem fwdRow_zero_of_empty (g : Im2RowGeom) (data : Int → Int) (row : Int)
    (h : boundX1 g (rowU g row) ≤ boundX0 g (rowU g row)
      ∨ boundY1 g (rowV g row) ≤ boundY0 g (rowV g row)) :
    ∀ w ∈ fwdRow g data row, w = 0 := by
  intro w hw
  simp only [fwdRow, zrow, List.mem_append, List.mem_flatMap, List.mem_range] at hw
  rcases hw with (⟨_, _, hw⟩ | ⟨j, hj, hw⟩) | ⟨_, _, hw⟩
  · exact List.eq_of_mem_replicate hw
  · rcases h with hx | hy
    · simp only [fwdMidRow, zrow, List.mem_append, List.mem_map, List.mem_range] at hw
      rcases hw with (hw | ⟨k, hk, _⟩) | hw
      · exact List.eq_of_mem_replicate hw
      · exfalso
        rw [static_max_eq] at hk
        omega
      · exact List.eq_of_mem_replicate hw
    · exfalso
      rw [static_max_eq] at hj
      omega
  · exact List.eq_of_mem_replicate hw

/- ------------------------------------------------------------------ -/
/-  Backward characterization                                          -/
/- ------------------------------------------------------------------ -/

theorem bwdCopyLoop_apply (stacked : Int → Int) (sX : Int) :
    ∀ (n : Nat) (b cur : Int) (data : Int → Int) (p : Int),
    bwdCopyLoop stacked sX n b cur data p
      = data p + (Finset.range n).sum
          (fun k : Nat => if b + (k : Int) * sX = p then stacked (cur + (k : Int)) else 0) := by
  intro n
  induction n with
  | zero => intro b cur data p; simp [bwdCopyLoop]
  | succ m ih =>
    intro b cur data p
    show bwdCopyLoop stacked sX m (b + sX) (cur + 1) (addAt data b (stacked cur)) p = _
    rw [ih]
    rw [Finset.sum_range_succ']
    have haddAt : addAt data b (stacked cur) p
        = data p + (if b + ((0 : Nat) : Int) * sX = p then stacked (cur + ((0 : Nat) : Int)) else 0) := by
      unfold addAt
      by_cases h : p = b
      · subst h
        simp
      · rw [if_neg h, if_neg (by intro hc; apply h; push_cast at hc; linarith), add_zero]
    rw [haddAt]
    have hcong : ∀ k ∈ Finset.range m,
        (if (b + sX) + (k : Int) * sX = p then stacked ((cur + 1) + (k : Int)) else 0)
          = (if b + ((k + 1 : Nat) : Int) * sX = p then stacked (cur + ((k + 1 : Nat) : Int)) else 0) := by
      intro k _
      have h1 : (b + sX) + (k : Int) * sX = b + ((k + 1 : Nat) : Int) * sX := by push_cast; ring
      have h2 : (cur + 1) + (k : Int) = cur + ((k + 1 : Nat) : Int) := by push_cast; ring
      rw [h1, h2]
    rw [Finset.sum_congr rfl hcong]
    ring

theorem bwdMidRow_snd (g : Im2RowGeom) (stacked : Int → Int) (u v z y : Int)
    (st : (Int → Int) × Int) :
    (bwdMidRow g stacked u v z y st).2 = st.2 + numPatchesX g := by
  simp only [bwdMidRow, static_max_eq]
  omega

theorem bwdMidRow_apply (g : Im2RowGeom) (stacked : Int → Int) (u v z y : Int)
    (st : (Int → Int) × Int) (hpx : 0 ≤ numPatchesX g) (p : Int) :
    (bwdMidRow g stacked u v z y st).1 p
      = st.1 p + (Finset.range (numPatchesX g).toNat).sum (fun xn : Nat =>
          if (boundX0 g u ≤ (xn : Int) ∧ (xn : Int) < boundX1 g u)
              ∧ targetIndex g u v z (xn : Int) y = p
          then stacked (st.2 + (xn : Int)) else 0) := by
  have h0 := boundX0_le g u
  have h1 := boundX1_le g u
  simp only [bwdMidRow, static_max_eq]
  rw [bwdCopyLoop_apply]
  congr 1
  have hstep1 : ∀ k ∈ Finset.range (boundX1 g u - max 0 (boundX0 g u)).toNat,
      (if ((z * g.height + (y * g.strideY + v * g.dilateY - g.padTop)) * g.width
            + (max 0 (boundX0 g u) * g.strideX + u * g.dilateX - g.padLeft)) + (k : Int) * g.strideX = p
       then stacked ((st.2 + max 0 (boundX0 g u)) + (k : Int)) else 0)
        = (fun xn : Nat =>
            if (boundX0 g u ≤ (xn : Int) ∧ (xn : Int) < boundX1 g u)
                ∧ targetIndex g u v z (xn : Int) y = p
            then stacked (st.2 + (xn : Int)) else 0) ((max 0 (boundX0 g u)).toNat + k) := by
    intro k hk
    simp only [Finset.mem_range] at hk
    show _ = if (boundX0 g u ≤ (((max 0 (boundX0 g u)).toNat + k : Nat) : Int)
          ∧ (((max 0 (boundX0 g u)).toNat + k : Nat) : Int) < boundX1 g u)
        ∧ targetIndex g u v z (((max 0 (boundX0 g u)).toNat + k : Nat) : Int) y = p
      then stacked (st.2 + (((max 0 (boundX0 g u)).toNat + k : Nat) : Int)) else 0
    have hcast : (((max 0 (boundX0 g u)).toNat + k : Nat) : Int) = max 0 (boundX0 g u) + (k : Int) := by
      omega
    rw [hcast]
    have hcond : boundX0 g u ≤ max 0 (boundX0 g u) + (k : Int)
        ∧ max 0 (boundX0 g u) + (k : Int) < boundX1 g u := by omega
    have haddr : ((z * g.height + (y * g.strideY + v * g.dilateY - g.padTop)) * g.width
          + (max 0 (boundX0 g u) * g.strideX + u * g.dilateX - g.padLeft)) + (k : Int) * g.strideX
        = targetIndex g u v z (max 0 (boundX0 g u) + (k : Int)) y := by
      unfold targetIndex sampleX sampleY
      ring
    rw [haddr, if_congr (Iff.symm (and_iff_right hcond)) rfl rfl]
    have harg : (st.2 + max 0 (boundX0 g u)) + (k : Int)
        = st.2 + (max 0 (boundX0 g u) + (k : Int)) := by ring
    rw [harg]
  rw [Finset.sum_congr rfl hstep1]
  rw [sum_shift_indicator
      (fun xn : Nat =>
        if (boundX0 g u ≤ (xn : Int) ∧ (xn : Int) < boundX1 g u)
            ∧ targetIndex g u v z (xn : Int) y = p
        then stacked (st.2 + (xn : Int)) else 0)
      ((boundX1 g u - max 0 (boundX0 g u)).toNat)
      ((max 0 (boundX0 g u)).toNat) ((numPatchesX g).toNat) (by omega)]
  apply Finset.sum_congr rfl
  intro xn hxn
  simp only [Finset.mem_range] at hxn
  by_cases hsc : (max 0 (boundX0 g u)).toNat ≤ xn
      ∧ xn < (max 0 (boundX0 g u)).toNat + (boundX1 g u - max 0 (boundX0 g u)).toNat
  · rw [if_pos hsc]
  · rw [if_neg hsc, if_neg]
    rintro ⟨⟨hc1, hc2⟩, _⟩
    exact hsc ⟨by omega, by omega⟩

theorem bwdRow_snd (g : Im2RowGeom) (stacked : Int → Int) (row : Int)
    (st : (Int → Int) × Int) :
    (bwdRow g stacked row st).2 = st.2 + numPatchesX g * numPatchesY g := by
  have hy0 := boundY0_le g (rowV g row)
  have hy1 := boundY1_le g (rowV g row)
  simp only [bwdRow]
  rw [foldl_range_snd _ (numPatchesX g)
      (fun st2 j => bwdMidRow_snd g stacked (rowU g row) (rowV g row) (rowZ g row)
        (static_max 0 (boundY0 g (rowV g row)) + (j : Int)) st2)]
  simp only [static_max_eq]
  have hlin : max 0 (max 0 (boundY0 g (rowV g row)))
      + ((boundY1 g (rowV g row) - max 0 (boundY0 g (rowV g row))).toNat : Int)
      + (numPatchesY g - max (max 0 (boundY0 g (rowV g row))) (boundY1 g (rowV g row)))
      = numPatchesY g := by omega
  linear_combination (numPatchesX g) * hlin

theorem bwdRow_apply (g : Im2RowGeom) (stacked : Int → Int) (row : Int)
    (st : (Int → Int) × Int) (hpx : 0 ≤ numPatchesX g) (hpy : 0 ≤ numPatchesY g) (p : Int) :
    (bwdRow g stacked row st).1 p
      = st.1 p + (Finset.range (numPatchesY g).toNat).sum (fun yn : Nat =>
          (Finset.range (numPatchesX g).toNat).sum (fun xn : Nat =>
            if ((boundX0 g (rowU g row) ≤ (xn : Int) ∧ (xn : Int) < boundX1 g (rowU g row))
                ∧ (boundY0 g (rowV g row) ≤ (yn : Int) ∧ (yn : Int) < boundY1 g (rowV g row)))
                ∧ targetIndex g (rowU g row) (rowV g row) (rowZ g row) (xn : Int) (yn : Int) = p
            then stacked (st.2 + (yn : Int) * numPatchesX g + (xn : Int)) else 0)) := by
  have hy0 := boundY0_le g (rowV g row)
  have hy1 := boundY1_le g (rowV g row)
  simp only [bwdRow]
  rw [foldl_range_char _ (numPatchesX g)
      (fun j cur => (Finset.range (numPatchesX g).toNat).sum (fun xn : Nat =>
        if (boundX0 g (rowU g row) ≤ (xn : Int) ∧ (xn : Int) < boundX1 g (rowU g row))
            ∧ targetIndex g (rowU g row) (rowV g row) (rowZ g row) (xn : Int)
                (static_max 0 (boundY0 g (rowV g row)) + (j : Int)) = p
        then stacked (cur + (xn : Int)) else 0)) p
      (fun st2 j => ⟨bwdMidRow_apply g stacked (rowU g row) (rowV g row) (rowZ g row)
          (static_max 0 (boundY0 g (rowV g row)) + (j : Int)) st2 hpx p,
        bwdMidRow_snd g stacked (rowU g row) (rowV g row) (rowZ g row)
          (static_max 0 (boundY0 g (rowV g row)) + (j : Int)) st2⟩)]
  simp only [static_max_eq]
  congr 1
  have hstep : ∀ j ∈ Finset.range (boundY1 g (rowV g row) - max 0 (boundY0 g (rowV g row))).toNat,
      (Finset.range (numPatchesX g).toNat).sum (fun xn : Nat =>
        if (boundX0 g (rowU g row) ≤ (xn : Int) ∧ (xn : Int) < boundX1 g (rowU g row))
            ∧ targetIndex g (rowU g row) (rowV g row) (rowZ g row) (xn : Int)
                (max 0 (boundY0 g (rowV g row)) + (j : Int)) = p
        then stacked ((st.2 + numPatchesX g * max 0 (max 0 (boundY0 g (rowV g row))))
            + (j : Int) * numPatchesX g + (xn : Int)) else 0)
        = (fun yn : Nat => (Finset.range (numPatchesX g).toNat).sum (fun xn : Nat =>
            if ((boundX0 g (rowU g row) ≤ (xn : Int) ∧ (xn : Int) < boundX1 g (rowU g row))
                ∧ (boundY0 g (rowV g row) ≤ (yn : Int) ∧ (yn : Int) < boundY1 g (rowV g row)))
                ∧ targetIndex g (rowU g row) (rowV g row) (rowZ g row) (xn : Int) (yn : Int) = p
            then stacked (st.2 + (yn : Int) * numPatchesX g + (xn : Int)) else 0))
          ((max 0 (boundY0 g (rowV g row))).toNat + j) := by
    intro j hj
    simp only [Finset.mem_range] at hj
    show _ = (Finset.range (numPatchesX g).toNat).sum (fun xn : Nat =>
        if ((boundX0 g (rowU g row) ≤ (xn : Int) ∧ (xn : Int) < boundX1 g (rowU g row))
            ∧ (boundY0 g (rowV g row) ≤ (((max 0 (boundY0 g (rowV g row))).toNat + j : Nat) : Int)
              ∧ (((max 0 (boundY0 g (rowV g row))).toNat + j : Nat) : Int) < boundY1 g (rowV g row)))
            ∧ targetIndex g (rowU g row) (rowV g row) (rowZ g row) (xn : Int)
                (((max 0 (boundY0 g (rowV g row))).toNat + j : Nat) : Int) = p
        then stacked (st.2
            + (((max 0 (boundY0 g (rowV g row))).toNat + j : Nat) : Int) * numPatchesX g
            + (xn : Int)) else 0)
    have hcast : (((max 0 (boundY0 g (rowV g row))).toNat + j : Nat) : Int)
        = max 0 (boundY0 g (rowV g row)) + (j : Int) := by omega
    rw [hcast]
    apply Finset.sum_congr rfl
    intro xn _
    have hyc : boundY0 g (rowV g row) ≤ max 0 (boundY0 g (rowV g row)) + (j : Int)
        ∧ max 0 (boundY0 g (rowV g row)) + (j : Int) < boundY1 g (rowV g row) := by omega
    have hcur : (st.2 + numPatchesX g * max 0 (max 0 (boundY0 g (rowV g row))))
          + (j : Int) * numPatchesX g + (xn : Int)
        = st.2 + (max 0 (boundY0 g (rowV g row)) + (j : Int)) * numPatchesX g + (xn : Int) := by
      have hmm : max 0 (max 0 (boundY0 g (rowV g row))) = max 0 (boundY0 g (rowV g row)) := by
        omega
      rw [hmm]
      ring
    rw [hcur]
    apply if_congr _ rfl rfl
    constructor
    · rintro ⟨hx', ht⟩
      exact ⟨⟨hx', hyc⟩, ht⟩
    · rintro ⟨⟨hx', _⟩, ht⟩
      exact ⟨hx', ht⟩
  rw [Finset.sum_congr rfl hstep]
  rw [sum_shift_indicator
      (fun yn : Nat => (Finset.range (numPatchesX g).toNat).sum (fun xn : Nat =>
        if ((boundX0 g (rowU g row) ≤ (xn : Int) ∧ (xn : Int) < boundX1 g (rowU g row))
            ∧ (boundY0 g (rowV g row) ≤ (yn : Int) ∧ (yn : Int) < boundY1 g (rowV g row)))
            ∧ targetIndex g (rowU g row) (rowV g row) (rowZ g row) (xn : Int) (yn : Int) = p
        then stacked (st.2 + (yn : Int) * numPatchesX g + (xn : Int)) else 0))
      ((boundY1 g (rowV g row) - max 0 (boundY0 g (rowV g row))).toNat)
      ((max 0 (boundY0 g (rowV g row))).toNat) ((numPatchesY g).toNat) (by omega)]
  apply Finset.sum_congr rfl
  intro yn hyn
  simp only [Finset.mem_range] at hyn
  by_cases hsc : (max 0 (boundY0 g (rowV g row))).toNat ≤ yn
      ∧ yn < (max 0 (boundY0 g (rowV g row))).toNat
          + (boundY1 g (rowV g row) - max 0 (boundY0 g (rowV g row))).toNat
  · rw [if_pos hsc]
  · rw [if_neg hsc]
    symm
    apply Finset.sum_eq_zero
    intro xn _
    rw [if_neg]
    rintro ⟨⟨_, ⟨hy1', hy2'⟩⟩, _⟩
    exact hsc ⟨by omega, by omega⟩

theorem im2row_backward_entry (g : Im2RowGeom) (stacked : Int → Int)
    (hpx : 0 ≤ numPatchesX g) (hpy : 0 ≤ numPatchesY g) (p : Int) :
    (im2row_backward_run g stacked).1 p
      = (Finset.range (numRows g).toNat).sum (fun rn : Nat =>
          (Finset.range (numPatchesY g).toNat).sum (fun yn : Nat =>
            (Finset.range (numPatchesX g).toNat).sum (fun xn : Nat =>
              if ((boundX0 g (rowU g (rn : Int)) ≤ (xn : Int)
                    ∧ (xn : Int) < boundX1 g (rowU g (rn : Int)))
                  ∧ (boundY0 g (rowV g (rn : Int)) ≤ (yn : Int)
                    ∧ (yn : Int) < boundY1 g (rowV g (rn : Int))))
                  ∧ targetIndex g (rowU g (rn : Int)) (rowV g (rn : Int)) (rowZ g (rn : Int))
                      (xn : Int) (yn : Int) = p
              then stacked ((rn : Int) * (numPatchesX g * numPatchesY g)
                  + (yn : Int) * numPatchesX g + (xn : Int)) else 0))) := by
  unfold im2row_backward_run
  rw [foldl_range_char _ (numPatchesX g * numPatchesY g)
      (fun rn cur => (Finset.range (numPatchesY g).toNat).sum (fun yn : Nat =>
        (Finset.range (numPatchesX g).toNat).sum (fun xn : Nat =>
          if ((boundX0 g (rowU g (rn : Int)) ≤ (xn : Int)
                ∧ (xn : Int) < boundX1 g (rowU g (rn : Int)))
              ∧ (boundY0 g (rowV g (rn : Int)) ≤ (yn : Int)
                ∧ (yn : Int) < boundY1 g (rowV g (rn : Int))))
              ∧ targetIndex g (rowU g (rn : Int)) (rowV g (rn : Int)) (rowZ g (rn : Int))
                  (xn : Int) (yn : Int) = p
          then stacked (cur + (yn : Int) * numPatchesX g + (xn : Int)) else 0))) p
      (fun st2 rn => ⟨bwdRow_apply g stacked (rn : Int) st2 hpx hpy p,
        bwdRow_snd g stacked (rn : Int) st2⟩)]
  simp only [zero_add]

theorem im2row_backward_scatter (g : Im2RowGeom) (stacked : Int → Int)
    (hsx : 0 < g.strideX) (hsy : 0 < g.strideY)
    (hpx : 0 ≤ numPatchesX g) (hpy : 0 ≤ numPatchesY g) (p : Int) :
    (im2row_backward_run g stacked).1 p
      = (Finset.range (numRows g).toNat).sum (fun rn : Nat =>
          (Finset.range (numPatchesY g).toNat).sum (fun yn : Nat =>
            (Finset.range (numPatchesX g).toNat).sum (fun xn : Nat =>
              if inBoundsXY g (rowU g (rn : Int)) (rowV g (rn : Int)) (xn : Int) (yn : Int)
                  ∧ targetIndex g (rowU g (rn : Int)) (rowV g (rn : Int)) (rowZ g (rn : Int))
                      (xn : Int) (yn : Int) = p
              then stacked ((rn : Int) * (numPatchesX g * numPatchesY g)
                  + (yn : Int) * numPatchesX g + (xn : Int)) else 0))) := by
  rw [im2row_backward_entry g stacked hpx hpy p]
  apply Finset.sum_congr rfl
  intro rn _
  apply Finset.sum_congr rfl
  intro yn hyn
  apply Finset.sum_congr rfl
  intro xn hxn
  simp only [Finset.mem_range] at hyn hxn
  have hbx := mem_boundX_iff g (rowU g (rn : Int)) (xn : Int) hsx (Int.natCast_nonneg xn) (by omega)
  have hby := mem_boundY_iff g (rowV g (rn : Int)) (yn : Int) hsy (Int.natCast_nonneg yn) (by omega)
  apply if_congr _ rfl rfl
  unfold inBoundsXY
  constructor
  · rintro ⟨⟨hxi, hyi⟩, ht⟩
    have a := hbx.mp hxi
    have b := hby.mp hyi
    exact ⟨⟨a.1, a.2, b.1, b.2⟩, ht⟩
  · rintro ⟨⟨h1, h2, h3, h4⟩, ht⟩
    exact ⟨⟨hbx.mpr ⟨h1, h2⟩, hby.mpr ⟨h3, h4⟩⟩, ht⟩

theorem triple_sum_indicator_card (R Y X : Nat) (P : Nat → Nat → Nat → Prop)
    [inst : ∀ r y x, Decidable (P r y x)] (c : Int) :
    (Finset.range R).sum (fun rn => (Finset.range Y).sum (fun yn => (Finset.range X).sum (fun xn =>
      if P rn yn xn then c else 0)))
      = ((((Finset.range R) ×ˢ ((Finset.range Y) ×ˢ (Finset.range X))).filter
          (fun e => P e.1 e.2.1 e.2.2)).card : Int) * c := by
  have h1 : ∀ rn : Nat,
      (Finset.range Y).sum (fun yn => (Finset.range X).sum (fun xn => if P rn yn xn then c else 0))
        = ((Finset.range Y) ×ˢ (Finset.range X)).sum
            (fun e => if P rn e.1 e.2 then c else 0) :=
    fun rn => (Finset.sum_product' _ _ _).symm
  rw [Finset.sum_congr rfl (fun rn _ => h1 rn)]
  rw [show ((Finset.range R).sum (fun rn => ((Finset.range Y) ×ˢ (Finset.range X)).sum
        (fun e => if P rn e.1 e.2 then c else 0)))
      = (((Finset.range R) ×ˢ ((Finset.range Y) ×ˢ (Finset.range X))).sum
        (fun d => if P d.1 d.2.1 d.2.2 then c else 0))
    from (Finset.sum_product' _ _ _).symm]
  rw [← Finset.sum_filter]
  rw [Finset.sum_const, nsmul_eq_mul]

theorem rowU_bounds (g : Im2RowGeom) (r : Int) (hr : 0 ≤ r) (hw : 0 < g.windowWidth) :
    0 ≤ rowU g r ∧ rowU g r < g.windowWidth := by
  unfold rowU
  rw [Int.tmod_eq_emod hr (le_of_lt hw)]
  exact ⟨Int.emod_nonneg r (by omega), Int.emod_lt_of_pos r hw⟩

theorem rowV_bounds (g : Im2RowGeom) (r : Int) (hr : 0 ≤ r) (hw : 0 < g.windowWidth)
    (hh : 0 < g.windowHeight) :
    0 ≤ rowV g r ∧ rowV g r < g.windowHeight := by
  unfold rowV
  have hq : 0 ≤ Int.tdiv r g.windowWidth := by
    rw [Int.tdiv_eq_ediv hr (by omega)]
    exact Int.ediv_nonneg hr (by omega)
  rw [Int.tmod_eq_emod hq (le_of_lt hh)]
  exact ⟨Int.emod_nonneg _ (by omega), Int.emod_lt_of_pos _ hh⟩

theorem rowDecomp (g : Im2RowGeom) (r : Int) :
    r = g.windowWidth * (g.windowHeight * rowZ g r + rowV g r) + rowU g r := by
  unfold rowU rowV rowZ
  have h1 := Int.tdiv_add_tmod r g.windowWidth
  have h2 := Int.tdiv_add_tmod (Int.tdiv r g.windowWidth) g.windowHeight
  rw [h2]
  linarith [h1]

theorem addr_decomp_unique (w h : Int) (hw : 0 < w) (hh : 0 < h)
    (z1 z2 sy1 sy2 sx1 sx2 : Int)
    (hx1 : 0 ≤ sx1) (hx1' : sx1 < w) (hx2 : 0 ≤ sx2) (hx2' : sx2 < w)
    (hy1 : 0 ≤ sy1) (hy1' : sy1 < h) (hy2 : 0 ≤ sy2) (hy2' : sy2 < h)
    (he : (z1 * h + sy1) * w + sx1 = (z2 * h + sy2) * w + sx2) :
    sx1 = sx2 ∧ sy1 = sy2 ∧ z1 = z2 := by
  have hmod : sx1 = sx2 := by
    have e1 : ((z1 * h + sy1) * w + sx1) % w = sx1 := by
      rw [add_comm, Int.add_mul_emod_self]
      exact Int.emod_eq_of_lt hx1 hx1'
    have e2 : ((z2 * h + sy2) * w + sx2) % w = sx2 := by
      rw [add_comm, Int.add_mul_emod_self]
      exact Int.emod_eq_of_lt hx2 hx2'
    rw [← e1, ← e2, he]
  have hdiv : z1 * h + sy1 = z2 * h + sy2 := by
    have e1 : ((z1 * h + sy1) * w + sx1) / w = z1 * h + sy1 := by
      rw [add_comm, Int.add_mul_ediv_right _ _ (by omega : w ≠ 0),
        Int.ediv_eq_zero_of_lt hx1 hx1', zero_add]
    have e2 : ((z2 * h + sy2) * w + sx2) / w = z2 * h + sy2 := by
      rw [add_comm, Int.add_mul_ediv_right _ _ (by omega : w ≠ 0),
        Int.ediv_eq_zero_of_lt hx2 hx2', zero_add]
    rw [← e1, ← e2, he]
  have hmod2 : sy1 = sy2 := by
    have e1 : (z1 * h + sy1) % h = sy1 := by
      rw [add_comm, Int.add_mul_emod_self]
      exact Int.emod_eq_of_lt hy1 hy1'
    have e2 : (z2 * h + sy2) % h = sy2 := by
      rw [add_comm, Int.add_mul_emod_self]
      exact Int.emod_eq_of_lt hy2 hy2'
    rw [← e1, ← e2, hdiv]
  have hz : z1 = z2 := by
    have e1 : (z1 * h + sy1) / h = z1 := by
      rw [add_comm, Int.add_mul_ediv_right _ _ (by omega : h ≠ 0),
        Int.ediv_eq_zero_of_lt hy1 hy1', zero_add]
    have e2 : (z2 * h + sy2) / h = z2 := by
      rw [add_comm, Int.add_mul_ediv_right _ _ (by omega : h ≠ 0),
        Int.ediv_eq_zero_of_lt hy2 hy2', zero_add]
    rw [← e1, ← e2, hdiv]
  exact ⟨hmod, hmod2, hz⟩

theorem stride_inj (s d W a1 a2 q1 q2 : Int)
    (hs : 0 < s) (hd : 0 < d)
    (hq1 : 0 ≤ q1) (hq1' : q1 < W) (hq2 : 0 ≤ q2) (hq2' : q2 < W)
    (hext : (W - 1) * d + 1 ≤ s)
    (he : a1 * s + q1 * d = a2 * s + q2 * d) :
    a1 = a2 ∧ q1 = q2 := by
  have hE : (a1 - a2) * s = (q2 - q1) * d := by linear_combination he
  by_cases ha : a1 = a2
  · subst ha
    refine ⟨rfl, ?_⟩
    have h0 : (q2 - q1) * d = 0 := by linarith [hE]
    rcases mul_eq_zero.mp h0 with h | h
    · omega
    · omega
  · exfalso
    have habs : |a1 - a2| * s = |q2 - q1| * d := by
      have := congrArg abs hE
      rwa [abs_mul, abs_mul, abs_of_pos hs, abs_of_pos hd] at this
    have h1 : |q2 - q1| ≤ W - 1 := by
      rw [abs_le]
      omega
    have h2 : |q2 - q1| * d ≤ (W - 1) * d := mul_le_mul_of_nonneg_right h1 (le_of_lt hd)
    have h3 : 1 ≤ |a1 - a2| := Int.one_le_abs (by omega)
    have h4 : s ≤ |a1 - a2| * s := le_mul_of_one_le_left (le_of_lt hs) h3
    linarith

theorem roundTrip_apply (g : Im2RowGeom) (v : Int → Int)
    (hsx : 0 < g.strideX) (hsy : 0 < g.strideY)
    (hpx : 0 ≤ numPatchesX g) (hpy : 0 ≤ numPatchesY g) (p : Int) :
    roundTrip g v p = (touchCount g p : Int) * v p := by
  unfold roundTrip
  rw [im2row_backward_scatter g _ hsx hsy hpx hpy p]
  have key : ∀ rn ∈ Finset.range (numRows g).toNat, ∀ yn ∈ Finset.range (numPatchesY g).toNat,
      ∀ xn ∈ Finset.range (numPatchesX g).toNat,
      (if inBoundsXY g (rowU g (rn : Int)) (rowV g (rn : Int)) (xn : Int) (yn : Int)
          ∧ targetIndex g (rowU g (rn : Int)) (rowV g (rn : Int)) (rowZ g (rn : Int))
              (xn : Int) (yn : Int) = p
       then (fun i => getEntry (im2row_forward g v) i)
            ((rn : Int) * (numPatchesX g * numPatchesY g)
              + (yn : Int) * numPatchesX g + (xn : Int)) else 0)
        = (if inBoundsXY g (rowU g (rn : Int)) (rowV g (rn : Int)) (xn : Int) (yn : Int)
            ∧ targetIndex g (rowU g (rn : Int)) (rowV g (rn : Int)) (rowZ g (rn : Int))
                (xn : Int) (yn : Int) = p
          then v p else 0) := by
    intro rn hrn yn hyn xn hxn
    simp only [Finset.mem_range] at hrn hyn hxn
    by_cases hc : inBoundsXY g (rowU g (rn : Int)) (rowV g (rn : Int)) (xn : Int) (yn : Int)
        ∧ targetIndex g (rowU g (rn : Int)) (rowV g (rn : Int)) (rowZ g (rn : Int))
            (xn : Int) (yn : Int) = p
    · rw [if_pos hc, if_pos hc]
      show getEntry (im2row_forward g v) _ = v p
      unfold getEntry
      have hflat : (rn : Int) * (numPatchesX g * numPatchesY g)
            + (yn : Int) * numPatchesX g + (xn : Int)
          = ((rn * ((numPatchesX g).toNat * (numPatchesY g).toNat)
              + (yn * (numPatchesX g).toNat + xn) : Nat) : Int) := by
        push_cast [Int.toNat_of_nonneg hpx, Int.toNat_of_nonneg hpy]
        ring
      rw [hflat, Int.toNat_natCast]
      rw [im2row_forward_entry g v hsx hsy hpx hpy rn yn xn (by omega) (by omega) (by omega)]
      rw [if_pos hc.1, hc.2]
    · rw [if_neg hc, if_neg hc]
  rw [Finset.sum_congr rfl (fun rn hrn => Finset.sum_congr rfl (fun yn hyn =>
    Finset.sum_congr rfl (fun xn hxn => key rn hrn yn hyn xn hxn)))]
  rw [triple_sum_indicator_card (numRows g).toNat (numPatchesY g).toNat (numPatchesX g).toNat
    (fun rn yn xn => inBoundsXY g (rowU g (rn : Int)) (rowV g (rn : Int)) (xn : Int) (yn : Int)
        ∧ targetIndex g (rowU g (rn : Int)) (rowV g (rn : Int)) (rowZ g (rn : Int))
            (xn : Int) (yn : Int) = p) (v p)]
  rfl

theorem touchCount_le_one (g : Im2RowGeom)
    (hsx : 0 < g.strideX) (hsy : 0 < g.strideY) (hdx : 0 < g.dilateX) (hdy : 0 < g.dilateY)
    (hww : 0 < g.windowWidth) (hwh : 0 < g.windowHeight)
    (hex : windowExtentX g ≤ g.strideX) (hey : windowExtentY g ≤ g.strideY) (p : Int) :
    touchCount g p ≤ 1 := by
  unfold touchCount
  rw [Finset.card_le_one]
  rintro ⟨r1, y1, x1⟩ h1 ⟨r2, y2, x2⟩ h2
  simp only [Finset.mem_filter, Finset.mem_product, Finset.mem_range] at h1 h2
  obtain ⟨⟨hr1, hy1, hx1⟩, hin1, ht1⟩ := h1
  obtain ⟨⟨hr2, hy2, hx2⟩, hin2, ht2⟩ := h2
  unfold inBoundsXY at hin1 hin2
  obtain ⟨ha1, hb1, hc1, hd1⟩ := hin1
  obtain ⟨ha2, hb2, hc2, hd2⟩ := hin2
  have hw : 0 < g.width := by linarith
  have hh : 0 < g.height := by linarith
  have htgt := ht1.trans ht2.symm
  unfold targetIndex at htgt
  obtain ⟨hsx12, hsy12, hz12⟩ := addr_decomp_unique g.width g.height hw hh
    (rowZ g (r1 : Int)) (rowZ g (r2 : Int))
    (sampleY g (rowV g (r1 : Int)) (y1 : Int)) (sampleY g (rowV g (r2 : Int)) (y2 : Int))
    (sampleX g (rowU g (r1 : Int)) (x1 : Int)) (sampleX g (rowU g (r2 : Int)) (x2 : Int))
    ha1 hb1 ha2 hb2 hc1 hd1 hc2 hd2 htgt
  have hu1 := rowU_bounds g (r1 : Int) (Int.natCast_nonneg r1) hww
  have hu2 := rowU_bounds g (r2 : Int) (Int.natCast_nonneg r2) hww
  have hv1 := rowV_bounds g (r1 : Int) (Int.natCast_nonneg r1) hww hwh
  have hv2 := rowV_bounds g (r2 : Int) (Int.natCast_nonneg r2) hww hwh
  unfold sampleX at hsx12
  unfold sampleY at hsy12
  unfold windowExtentX at hex
  unfold windowExtentY at hey
  obtain ⟨hxx, huu⟩ := stride_inj g.strideX g.dilateX g.windowWidth (x1 : Int) (x2 : Int)
    (rowU g (r1 : Int)) (rowU g (r2 : Int)) hsx hdx hu1.1 hu1.2 hu2.1 hu2.2 hex
    (by linarith)
  obtain ⟨hyy, hvv⟩ := stride_inj g.strideY g.dilateY g.windowHeight (y1 : Int) (y2 : Int)
    (rowV g (r1 : Int)) (rowV g (r2 : Int)) hsy hdy hv1.1 hv1.2 hv2.1 hv2.2 hey
    (by linarith)
  have hd1' := rowDecomp g (r1 : Int)
  have hd2' := rowDecomp g (r2 : Int)
  have hrr : (r1 : Int) = (r2 : Int) := by
    rw [hd1', hd2', huu, hvv, hz12]
  simp only [Prod.mk.injEq]
  omega

/- ------------------------------------------------------------------ -/
/-  Fully-connected operator: BLAS entry evaluation                    -/
/- ------------------------------------------------------------------ -/

theorem gemmRun_entry (transA transB : Bool) (m n k alpha : Int) (a : Int → Int) (lda : Int)
    (bm : Int → Int) (ldb : Int) (beta : Int) (c : Int → Int) (i j : Int)
    (hi : 0 ≤ i) (him : i < m) (hj : 0 ≤ j) (hjn : j < n) :
    gemmRun transA transB m n k alpha a lda bm ldb beta c m (i + j * m)
      = alpha * (Finset.range k.toNat).sum
          (fun l : Nat => opEl transA a lda i (l : Int) * opEl transB bm ldb (l : Int) j)
        + beta * c (i + j * m) := by
  have hm : 0 < m := by omega
  have hmod : (i + j * m) % m = i := by
    rw [Int.add_mul_emod_self]
    exact Int.emod_eq_of_lt hi him
  have hdiv : (i + j * m) / m = j := by
    rw [Int.add_mul_ediv_right _ _ (by omega : m ≠ 0), Int.ediv_eq_zero_of_lt hi him, zero_add]
  have hidx : 0 ≤ i + j * m := add_nonneg hi (mul_nonneg hj (le_of_lt hm))
  simp only [gemmRun]
  rw [if_pos ⟨hm, hidx, by rw [hmod]; exact him, by rw [hdiv]; exact hjn⟩, hmod, hdiv]

theorem gemvRun_entry (trans : Bool) (m n alpha : Int) (a : Int → Int) (lda : Int)
    (x : Int → Int) (incx beta : Int) (y : Int → Int) (i : Int)
    (hi : 0 ≤ i) (hir : i < (if trans then n else m)) :
    gemvRun trans m n alpha a lda x incx beta y 1 i
      = alpha * (Finset.range (if trans then m else n).toNat).sum
          (fun l : Nat => opEl trans a lda i (l : Int) * x ((l : Int) * incx))
        + beta * y i := by
  simp only [gemvRun]
  rw [if_pos ⟨by omega, hi, Int.emod_one i, by rw [Int.ediv_one]; exact hir⟩, Int.ediv_one]

/- ------------------------------------------------------------------ -/
/-  Claims: im2row                                                     -/
/- ------------------------------------------------------------------ -/

/-- C8: for all integers `a` and `b > 0`, the source helpers `floor_divide`
and `ceil_divide` compute the mathematical floor and ceiling of `a / b`,
including for negative numerators; consequently the valid-interval bounds
`x0, x1, y0, y1` are exact: for a patch index within `[0, numPatches)` the
interval condition holds exactly when the sampled coordinate is inside the
volume. -/
theorem claim_C8_divide_exact :
    (∀ a b : Int, 0 < b →
      floor_divide a b = Int.floor ((a : ℚ) / (b : ℚ))
        ∧ ceil_divide a b = Int.ceil ((a : ℚ) / (b : ℚ)))
    ∧ (∀ (g : Im2RowGeom) (u x : Int), 0 < g.strideX → 0 ≤ x → x < numPatchesX g →
        ((boundX0 g u ≤ x ∧ x < boundX1 g u)
          ↔ (0 ≤ sampleX g u x ∧ sampleX g u x < g.width)))
    ∧ (∀ (g : Im2RowGeom) (v y : Int), 0 < g.strideY → 0 ≤ y → y < numPatchesY g →
        ((boundY0 g v ≤ y ∧ y < boundY1 g v)
          ↔ (0 ≤ sampleY g v y ∧ sampleY g v y < g.height))) := by
  refine ⟨fun a b hb => ⟨?_, ?_⟩,
    fun g u x hs h0 h1 => mem_boundX_iff g u x hs h0 h1,
    fun g v y hs h0 h1 => mem_boundY_iff g v y hs h0 h1⟩
  · have hb' : (0 : ℚ) < (b : ℚ) := by exact_mod_cast hb
    have hlb : floor_divide a b * b ≤ a := (le_floor_divide_iff a b _ hb).mp le_rfl
    have hub : a < (floor_divide a b + 1) * b := by
      by_contra hcon
      push_neg at hcon
      have := (le_floor_divide_iff a b (floor_divide a b + 1) hb).mpr hcon
      omega
    symm
    rw [Int.floor_eq_iff]
    constructor
    · rw [le_div_iff₀ hb']
      exact_mod_cast hlb
    · rw [div_lt_iff₀ hb']
      exact_mod_cast hub
  · have hb' : (0 : ℚ) < (b : ℚ) := by exact_mod_cast hb
    have hub : a ≤ ceil_divide a b * b := (ceil_divide_le_iff a b _ hb).mp le_rfl
    have hlb : (ceil_divide a b - 1) * b < a := by
      by_contra hcon
      push_neg at hcon
      have := (ceil_divide_le_iff a b (ceil_divide a b - 1) hb).mpr hcon
      omega
    symm
    rw [Int.ceil_eq_iff]
    constructor
    · rw [lt_div_iff₀ hb']
      exact_mod_cast hlb
    · rw [div_le_iff₀ hb']
      exact_mod_cast hub

/-- Witness for C8 at `a = -7`, `b = 3` (floor `-3`, ceiling `-2`) and a
concrete padded geometry for the bound-exactness part. -/
theorem claim_C8_witness :
    ((0 : Int) < 3
      ∧ floor_divide (-7) 3 = Int.floor (((-7 : Int) : ℚ) / ((3 : Int) : ℚ))
      ∧ ceil_divide (-7) 3 = Int.ceil (((-7 : Int) : ℚ) / ((3 : Int) : ℚ)))
    ∧ ((boundX0 ⟨3, 2, 1, 2, 1, 1, 1, 1, 1, 0, 0, 1, 1⟩ 0 ≤ 1
          ∧ (1 : Int) < boundX1 ⟨3, 2, 1, 2, 1, 1, 1, 1, 1, 0, 0, 1, 1⟩ 0)
        ↔ (0 ≤ sampleX ⟨3, 2, 1, 2, 1, 1, 1, 1, 1, 0, 0, 1, 1⟩ 0 1
          ∧ sampleX ⟨3, 2, 1, 2, 1, 1, 1, 1, 1, 0, 0, 1, 1⟩ 0 1
            < (⟨3, 2, 1, 2, 1, 1, 1, 1, 1, 0, 0, 1, 1⟩ : Im2RowGeom).width)) :=
  ⟨⟨by decide, claim_C8_divide_exact.1 (-7) 3 (by decide)⟩,
    claim_C8_divide_exact.2.1 ⟨3, 2, 1, 2, 1, 1, 1, 1, 1, 0, 0, 1, 1⟩ 0 1
      (by decide) (by decide) (by decide)⟩

/-- C10: the CPU im2row forward and backward return `Success` for every
argument combination; they never validate the geometry (non-positive stride
or dilation, negative patch counts) and never report an error. -/
theorem claim_C10_always_success (g : Im2RowGeom) (data stacked : Int → Int) :
    (im2row_cpu_forward g data).1 = ErrorCode.Success
      ∧ (im2row_cpu_backward g stacked).1 = ErrorCode.Success :=
  ⟨rfl, rfl⟩

/-- C9: in im2row backward the read cursor advances by exactly
`numPatchesX * numPatchesY` entries for every row (empty valid intervals
included), so after all `numRows` rows it has traversed exactly
`numRows * numPatchesX * numPatchesY` entries. -/
theorem claim_C9_cursor (g : Im2RowGeom) (stacked : Int → Int) :
    (∀ (row : Int) (st : (Int → Int) × Int),
        (bwdRow g stacked row st).2 = st.2 + numPatchesX g * numPatchesY g)
    ∧ (0 ≤ numRows g →
        (im2row_backward_run g stacked).2 = numRows g * (numPatchesX g * numPatchesY g)) := by
  constructor
  · intro row st
    exact bwdRow_snd g stacked row st
  · intro h
    unfold im2row_backward_run
    rw [foldl_range_snd _ (numPatchesX g * numPatchesY g)
        (fun st2 r => bwdRow_snd g stacked (r : Int) st2)]
    show (0 : Int) + ((numRows g).toNat : Int) * (numPatchesX g * numPatchesY g)
      = numRows g * (numPatchesX g * numPatchesY g)
    rw [Int.toNat_of_nonneg h]
    ring

/-- Witness for C9 on the 4x4 volume with a 2x2 window and stride 1. -/
theorem claim_C9_witness :
    (bwdRow (⟨4, 4, 1, 2, 2, 1, 1, 0, 0, 0, 0, 1, 1⟩ : Im2RowGeom) (fun _ => 1) 0
        (fun _ => 0, 0)).2
      = 0 + numPatchesX ⟨4, 4, 1, 2, 2, 1, 1, 0, 0, 0, 0, 1, 1⟩
          * numPatchesY ⟨4, 4, 1, 2, 2, 1, 1, 0, 0, 0, 0, 1, 1⟩
    ∧ (im2row_backward_run (⟨4, 4, 1, 2, 2, 1, 1, 0, 0, 0, 0, 1, 1⟩ : Im2RowGeom)
        (fun _ => 1)).2
      = numRows ⟨4, 4, 1, 2, 2, 1, 1, 0, 0, 0, 0, 1, 1⟩
          * (numPatchesX ⟨4, 4, 1, 2, 2, 1, 1, 0, 0, 0, 0, 1, 1⟩
            * numPatchesY ⟨4, 4, 1, 2, 2, 1, 1, 0, 0, 0, 0, 1, 1⟩) :=
  ⟨(claim_C9_cursor ⟨4, 4, 1, 2, 2, 1, 1, 0, 0, 0, 0, 1, 1⟩ (fun _ => 1)).1 0 (fun _ => 0, 0),
    (claim_C9_cursor ⟨4, 4, 1, 2, 2, 1, 1, 0, 0, 0, 0, 1, 1⟩ (fun _ => 1)).2 (by decide)⟩

/-- C1: for every geometry with positive strides and dilations and
non-negative patch counts, the forward patch matrix entry at row `rn`
(decomposing to window offset `(u,v,z)`) and patch `(x,y)` (flat column
`y * numPatchesX + x`, raster order) equals the source value at coordinate
`(x*strideX + u*dilateX - padLeft, y*strideY + v*dilateY - padTop, z)` when
that coordinate lies in `[0,width) x [0,height)` and exactly 0 otherwise;
moreover any row whose valid interval `[x0,x1)` or `[y0,y1)` is empty is
written entirely as zeros. -/
theorem claim_C1_forward_entries (g : Im2RowGeom) (data : Int → Int)
    (hsx : 0 < g.strideX) (hsy : 0 < g.strideY) (hdx : 0 < g.dilateX) (hdy : 0 < g.dilateY)
    (hpx : 0 ≤ numPatchesX g) (hpy : 0 ≤ numPatchesY g)
    (rn yn xn : Nat) (hr : (rn : Int) < numRows g)
    (hy : (yn : Int) < numPatchesY g) (hx : (xn : Int) < numPatchesX g) :
    (getEntry (im2row_forward g data)
        ((rn : Int) * (numPatchesX g * numPatchesY g)
          + ((yn : Int) * numPatchesX g + (xn : Int)))
      = if inBoundsXY g (rowU g (rn : Int)) (rowV g (rn : Int)) (xn : Int) (yn : Int)
        then data (targetIndex g (rowU g (rn : Int)) (rowV g (rn : Int)) (rowZ g (rn : Int))
          (xn : Int) (yn : Int))
        else 0)
    ∧ ((boundX1 g (rowU g (rn : Int)) ≤ boundX0 g (rowU g (rn : Int))
        ∨ boundY1 g (rowV g (rn : Int)) ≤ boundY0 g (rowV g (rn : Int))) →
        ∀ w ∈ fwdRow g data (rn : Int), w = 0) := by
  constructor
  · unfold getEntry
    have hflat : (rn : Int) * (numPatchesX g * numPatchesY g)
          + ((yn : Int) * numPatchesX g + (xn : Int))
        = ((rn * ((numPatchesX g).toNat * (numPatchesY g).toNat)
            + (yn * (numPatchesX g).toNat + xn) : Nat) : Int) := by
      push_cast [Int.toNat_of_nonneg hpx, Int.toNat_of_nonneg hpy]
      ring
    rw [hflat, Int.toNat_natCast]
    exact im2row_forward_entry g data hsx hsy hpx hpy rn yn xn hr hy hx
  · exact fwdRow_zero_of_empty g data (rn : Int)

/-- Witness for C1: padded geometry, entry (0,0,0) is a padding zero. -/
theorem claim_C1_witness :
    getEntry (im2row_forward ⟨3, 2, 1, 2, 1, 1, 1, 1, 1, 0, 0, 1, 1⟩ (fun i => i + 1))
        (((0 : Nat) : Int) * (numPatchesX ⟨3, 2, 1, 2, 1, 1, 1, 1, 1, 0, 0, 1, 1⟩
            * numPatchesY ⟨3, 2, 1, 2, 1, 1, 1, 1, 1, 0, 0, 1, 1⟩)
          + (((0 : Nat) : Int) * numPatchesX ⟨3, 2, 1, 2, 1, 1, 1, 1, 1, 0, 0, 1, 1⟩
            + ((0 : Nat) : Int))) = 0 := by
  have h := (claim_C1_forward_entries ⟨3, 2, 1, 2, 1, 1, 1, 1, 1, 0, 0, 1, 1⟩ (fun i => i + 1)
    (by decide) (by decide) (by decide) (by decide) (by decide) (by decide)
    0 0 0 (by decide) (by decide) (by decide)).1
  exact h.trans (by decide)

/-- C2: for every geometry with positive strides and dilations and
non-negative patch counts, im2row backward starts from the zero-filled
volume and, at every address `p`, the result is the sum over all rows
`(u,v,z)` and all patches `(x,y)` whose sampled coordinate is in bounds and
maps to `p` of the corresponding patch-matrix entry (row-major flat index
`row * numPatchesX * numPatchesY + y * numPatchesX + x`); overlapping
patches sum, and out-of-bounds entries contribute nothing. -/
theorem claim_C2_backward_scatter (g : Im2RowGeom) (stacked : Int → Int)
    (hsx : 0 < g.strideX) (hsy : 0 < g.strideY) (hdx : 0 < g.dilateX) (hdy : 0 < g.dilateY)
    (hpx : 0 ≤ numPatchesX g) (hpy : 0 ≤ numPatchesY g) (p : Int) :
    (im2row_backward_run g stacked).1 p
      = (Finset.range (numRows g).toNat).sum (fun rn : Nat =>
          (Finset.range (numPatchesY g).toNat).sum (fun yn : Nat =>
            (Finset.range (numPatchesX g).toNat).sum (fun xn : Nat =>
              if inBoundsXY g (rowU g (rn : Int)) (rowV g (rn : Int)) (xn : Int) (yn : Int)
                  ∧ targetIndex g (rowU g (rn : Int)) (rowV g (rn : Int)) (rowZ g (rn : Int))
                      (xn : Int) (yn : Int) = p
              then stacked ((rn : Int) * (numPatchesX g * numPatchesY g)
                  + (yn : Int) * numPatchesX g + (xn : Int)) else 0))) :=
  im2row_backward_scatter g stacked hsx hsy hpx hpy p

/-- Witness for C2: width 3, window 1, stride 2; the entry read at flat
index 0 lands in voxel 0. -/
theorem claim_C2_witness :
    (im2row_backward_run (⟨3, 1, 1, 1, 1, 2, 1, 0, 0, 0, 0, 1, 1⟩ : Im2RowGeom)
        (fun i => i + 5)).1 0 = 5 := by
  have h := claim_C2_backward_scatter ⟨3, 1, 1, 1, 1, 2, 1, 0, 0, 0, 0, 1, 1⟩ (fun i => i + 5)
    (by decide) (by decide) (by decide) (by decide) (by decide) (by decide) 0
  exact h.trans (by decide)

/-- C3 counterexample: geometry of width 3, 1x1 window, strideX 2 — the
stride is not below the window extent in either direction (so patches do
not overlap), yet the round trip on the all-ones volume yields 0 at voxel 1
(covered by no patch) instead of the original value 1: "reproduces V
exactly" fails as stated. -/
theorem claim_C3_counterexample :
    (0 < (⟨3, 1, 1, 1, 1, 2, 1, 0, 0, 0, 0, 1, 1⟩ : Im2RowGeom).strideX
      ∧ 0 < (⟨3, 1, 1, 1, 1, 2, 1, 0, 0, 0, 0, 1, 1⟩ : Im2RowGeom).strideY
      ∧ 0 < (⟨3, 1, 1, 1, 1, 2, 1, 0, 0, 0, 0, 1, 1⟩ : Im2RowGeom).dilateX
      ∧ 0 < (⟨3, 1, 1, 1, 1, 2, 1, 0, 0, 0, 0, 1, 1⟩ : Im2RowGeom).dilateY
      ∧ 0 ≤ numPatchesX ⟨3, 1, 1, 1, 1, 2, 1, 0, 0, 0, 0, 1, 1⟩
      ∧ 0 ≤ numPatchesY ⟨3, 1, 1, 1, 1, 2, 1, 0, 0, 0, 0, 1, 1⟩
      ∧ windowExtentX ⟨3, 1, 1, 1, 1, 2, 1, 0, 0, 0, 0, 1, 1⟩
          ≤ (⟨3, 1, 1, 1, 1, 2, 1, 0, 0, 0, 0, 1, 1⟩ : Im2RowGeom).strideX
      ∧ windowExtentY ⟨3, 1, 1, 1, 1, 2, 1, 0, 0, 0, 0, 1, 1⟩
          ≤ (⟨3, 1, 1, 1, 1, 2, 1, 0, 0, 0, 0, 1, 1⟩ : Im2RowGeom).strideY)
    ∧ roundTrip ⟨3, 1, 1, 1, 1, 2, 1, 0, 0, 0, 0, 1, 1⟩ (fun _ => 1) 1 ≠ 1 := by
  constructor
  · decide
  · decide

/-- C3 (amended, as forced by the counterexample): for positive strides and
dilations and non-negative patch counts, the round trip
`patchAccumulate(patchExtract(V))` equals, at every voxel, the number of
patches touching that voxel times the original value (overlapping patches
sum); when additionally the window dimensions are positive and the stride is
at least the window extent in each direction, every voxel is touched at most
once, so the round trip reproduces `V` exactly at every voxel touched by a
patch (and is 0 at voxels no patch covers — the original claim wrongly
asserted exact reproduction everywhere). -/
theorem claim_C3_roundtrip_amended (g : Im2RowGeom) (v : Int → Int)
    (hsx : 0 < g.strideX) (hsy : 0 < g.strideY) (hdx : 0 < g.dilateX) (hdy : 0 < g.dilateY)
    (hpx : 0 ≤ numPatchesX g) (hpy : 0 ≤ numPatchesY g) (p : Int) :
    roundTrip g v p = (touchCount g p : Int) * v p
    ∧ (0 < g.windowWidth → 0 < g.windowHeight →
        windowExtentX g ≤ g.strideX → windowExtentY g ≤ g.strideY →
        touchCount g p ≤ 1 ∧ (touchCount g p = 1 → roundTrip g v p = v p)) := by
  refine ⟨roundTrip_apply g v hsx hsy hpx hpy p, fun hww hwh hex hey => ⟨?_, ?_⟩⟩
  · exact touchCount_le_one g hsx hsy hdx hdy hww hwh hex hey p
  · intro h1
    rw [roundTrip_apply g v hsx hsy hpx hpy p, h1]
    push_cast
    ring

/-- Witness for C3 (amended) on the 4x4 volume with a 2x2 window and
stride 1: voxel (1,1) is touched by 4 overlapping patches. -/
theorem claim_C3_witness :
    roundTrip (⟨4, 4, 1, 2, 2, 1, 1, 0, 0, 0, 0, 1, 1⟩ : Im2RowGeom) (fun i => i) 5 = 20 := by
  have h := (claim_C3_roundtrip_amended ⟨4, 4, 1, 2, 2, 1, 1, 0, 0, 0, 0, 1, 1⟩ (fun i => i)
    (by decide) (by decide) (by decide) (by decide) (by decide) (by decide) 5).1
  exact h.trans (by decide)

/- ------------------------------------------------------------------ -/
/-  Claims: fully-connected operator                                   -/
/- ------------------------------------------------------------------ -/

/-- C4: with all collaborator calls succeeding, the fully-connected forward
pass computes: with a filter, `output = filterᵀ · input` on flattened
volumes of length `V = height*width*depth` (plus the bias when present,
added to every one of the `n` columns via the all-ones outer product);
without a filter, an element-wise copy of the input (with the bias likewise
added per column when present); and the first primitive invoked is the
matrix-vector multiply exactly when `n == 1`, the general matrix-matrix
multiply otherwise. -/
theorem claim_C4_fc_forward (orc : ForwardOracle) (output input filter bias : FCTensor)
    (h1 : orc.gemvStatus = ErrorCode.Success) (h2 : orc.gemmStatus = ErrorCode.Success)
    (h3 : orc.allOnesOk = true)
    (hb : bias.present = true → FCTensor.numElements bias = filter.size) :
    (filter.present = true → ∀ i j : Nat, (i : Int) < filter.size → (j : Int) < input.size →
      (fcForward orc output input filter bias).2.1 ((i : Int) + (j : Int) * filter.size)
        = (Finset.range (filter.height * filter.width * filter.depth).toNat).sum
            (fun l : Nat =>
              filter.memory ((l : Int) + (i : Int) * (filter.height * filter.width * filter.depth))
                * input.memory ((l : Int) + (j : Int) * (filter.height * filter.width * filter.depth)))
          + (if bias.present = true then bias.memory (i : Int) else 0))
    ∧ (filter.present = false → bias.present = false → ∀ idx : Int,
        0 ≤ idx → idx < FCTensor.numElements input →
        (fcForward orc output input filter bias).2.1 idx = input.memory idx)
    ∧ (filter.present = false → bias.present = true → ∀ i j : Nat,
        (i : Int) < FCTensor.numElements bias → (j : Int) < input.size →
        (fcForward orc output input filter bias).2.1
            ((i : Int) + (j : Int) * FCTensor.numElements bias)
          = copyRun output.memory input.memory (FCTensor.numElements input)
              ((i : Int) + (j : Int) * FCTensor.numElements bias) + bias.memory (i : Int))
    ∧ (filter.present = true →
        ((fcForward orc output input filter bias).2.2).head?
          = some (if input.size = 1 then FCCall.gemv else FCCall.gemm)) := by
  refine ⟨?_, ?_, ?_, ?_⟩
  · intro hf i j hi hj
    by_cases hone : input.size = 1
    · have hj0 : j = 0 := by omega
      subst hj0
      simp only [fcForward, fcForwardBias]
      rw [if_pos hf, if_pos hone, if_pos h1]
      by_cases hbp : bias.present = true
      · rw [if_pos hbp, if_pos h3]
        have hbn := hb hbp
        show gemmRun false false (FCTensor.numElements bias) input.size 1 1 bias.memory
            (FCTensor.numElements bias) (fun _ => 1) 1 1
            (gemvRun true (filter.height * filter.width * filter.depth) filter.size 1
              filter.memory (filter.height * filter.width * filter.depth) input.memory 1 0
              output.memory 1) (FCTensor.numElements bias)
            ((i : Int) + ((0 : Nat) : Int) * filter.size) = _
        rw [hbn]
        rw [gemmRun_entry false false filter.size input.size 1 1 bias.memory filter.size
          (fun _ => 1) 1 1 _ (i : Int) ((0 : Nat) : Int) (Int.natCast_nonneg i) hi
          (Int.natCast_nonneg 0) (by rw [hone]; omega)]
        have hidx : (i : Int) + ((0 : Nat) : Int) * filter.size = (i : Int) := by
          push_cast
          ring
        rw [hidx]
        rw [gemvRun_entry true (filter.height * filter.width * filter.depth) filter.size 1
          filter.memory (filter.height * filter.width * filter.depth) input.memory 1 0
          output.memory (i : Int) (Int.natCast_nonneg i) (by simpa using hi)]
        simp only [if_true, hbp, opEl, Finset.sum_range_one, Nat.cast_zero, zero_mul,
          add_zero, mul_one, one_mul, zero_add, mul_zero, Int.toNat_one,
          Bool.false_eq_true, if_false]
        ring_nf
        congr 1
        apply Finset.sum_congr rfl
        intro l _
        congr 1 <;> congr 1 <;> ring
      · rw [if_neg hbp]
        show gemvRun true (filter.height * filter.width * filter.depth) filter.size 1
            filter.memory (filter.height * filter.width * filter.depth) input.memory 1 0
            output.memory 1 ((i : Int) + ((0 : Nat) : Int) * filter.size) = _
        have hidx : (i : Int) + ((0 : Nat) : Int) * filter.size = (i : Int) := by
          push_cast
          ring
        rw [hidx]
        rw [gemvRun_entry true (filter.height * filter.width * filter.depth) filter.size 1
          filter.memory (filter.height * filter.width * filter.depth) input.memory 1 0
          output.memory (i : Int) (Int.natCast_nonneg i) (by simpa using hi)]
        simp only [if_true, hbp, opEl, Nat.cast_zero, zero_mul, add_zero, mul_one,
          one_mul, zero_add, mul_zero, Bool.false_eq_true, if_false]
    · simp only [fcForward, fcForwardBias]
      rw [if_pos hf, if_neg hone, if_pos h2]
      by_cases hbp : bias.present = true
      · rw [if_pos hbp, if_pos h3]
        have hbn := hb hbp
        show gemmRun false false (FCTensor.numElements bias) input.size 1 1 bias.memory
            (FCTensor.numElements bias) (fun _ => 1) 1 1
            (gemmRun true false filter.size input.size
              (filter.height * filter.width * filter.depth) 1 filter.memory
              (filter.height * filter.width * filter.depth) input.memory
              (filter.height * filter.width * filter.depth) 0 output.memory filter.size)
            (FCTensor.numElements bias) ((i : Int) + (j : Int) * filter.size) = _
        rw [hbn]
        rw [gemmRun_entry false false filter.size input.size 1 1 bias.memory filter.size
          (fun _ => 1) 1 1 _ (i : Int) (j : Int) (Int.natCast_nonneg i) hi
          (Int.natCast_nonneg j) hj]
        rw [gemmRun_entry true false filter.size input.size
          (filter.height * filter.width * filter.depth) 1 filter.memory
          (filter.height * filter.width * filter.depth) input.memory
          (filter.height * filter.width * filter.depth) 0 output.memory (i : Int) (j : Int)
          (Int.natCast_nonneg i) hi (Int.natCast_nonneg j) hj]
        simp only [hbp, if_true, opEl, Finset.sum_range_one, Nat.cast_zero, zero_mul,
          add_zero, mul_one, one_mul, zero_add, mul_zero, Int.toNat_one,
          Bool.false_eq_true, if_false]
        ring_nf
        congr 1
        apply Finset.sum_congr rfl
        intro l _
        congr 1 <;> congr 1 <;> ring
      · rw [if_neg hbp]
        show gemmRun true false filter.size input.size
            (filter.height * filter.width * filter.depth) 1 filter.memory
            (filter.height * filter.width * filter.depth) input.memory
            (filter.height * filter.width * filter.depth) 0 output.memory filter.size
            ((i : Int) + (j : Int) * filter.size) = _
        rw [gemmRun_entry true false filter.size input.size
          (filter.height * filter.width * filter.depth) 1 filter.memory
          (filter.height * filter.width * filter.depth) input.memory
          (filter.height * filter.width * filter.depth) 0 output.memory (i : Int) (j : Int)
          (Int.natCast_nonneg i) hi (Int.natCast_nonneg j) hj]
        simp only [hbp, opEl, Bool.false_eq_true, if_false, if_true, Nat.cast_zero,
          zero_mul, add_zero, mul_one, one_mul, zero_add, mul_zero]
  · intro hf hbp idx h0 hcnt
    simp only [fcForward, fcForwardBias]
    rw [if_neg (by rw [hf]; simp), if_neg (by rw [hbp]; simp)]
    show copyRun output.memory input.memory (FCTensor.numElements input) idx = input.memory idx
    unfold copyRun
    rw [if_pos ⟨h0, hcnt⟩]
  · intro hf hbp i j hi hj
    simp only [fcForward, fcForwardBias]
    rw [if_neg (by rw [hf]; simp), if_pos hbp, if_pos h3]
    show gemmRun false false (FCTensor.numElements bias) input.size 1 1 bias.memory
        (FCTensor.numElements bias) (fun _ => 1) 1 1
        (copyRun output.memory input.memory (FCTensor.numElements input))
        (FCTensor.numElements bias) ((i : Int) + (j : Int) * FCTensor.numElements bias) = _
    rw [gemmRun_entry false false (FCTensor.numElements bias) input.size 1 1 bias.memory
      (FCTensor.numElements bias) (fun _ => 1) 1 1 _ (i : Int) (j : Int)
      (Int.natCast_nonneg i) hi (Int.natCast_nonneg j) hj]
    simp only [opEl, Finset.sum_range_one, Nat.cast_zero, zero_mul, add_zero, mul_one,
      one_mul, zero_add, mul_zero, Int.toNat_one, Bool.false_eq_true, if_false]
    ring_nf
  · intro hf
    by_cases hone : input.size = 1
    · simp only [fcForward, fcForwardBias]
      rw [if_pos hf, if_pos hone, if_pos h1]
      by_cases hbp : bias.present = true
      · rw [if_pos hbp, if_pos h3]
        simp [hone]
      · rw [if_neg hbp]
        simp [hone]
    · simp only [fcForward, fcForwardBias]
      rw [if_pos hf, if_neg hone, if_pos h2]
      by_cases hbp : bias.present = true
      · rw [if_pos hbp, if_pos h3]
        simp [hone]
      · rw [if_neg hbp]
        simp [hone]

/-- Witness for C4: concrete 2-volume, 2 filters, batch 3, bias [10,20];
output entry (0,0) is 1*1 + 1*2 + 10 = 13. -/
theorem claim_C4_witness :
    (fcForward ⟨ErrorCode.Success, ErrorCode.Success, ErrorCode.Success, true,
        ErrorCode.Success, ErrorCode.Success⟩
      ⟨fun _ => 0, 1, 1, 2, 3, true⟩ ⟨fun i => i + 1, 2, 1, 1, 3, true⟩
      ⟨fun i => if i < 2 then 1 else i, 2, 1, 1, 2, true⟩
      ⟨fun i => 10 * (i + 1), 2, 1, 1, 1, true⟩).2.1 0 = 13 := by
  have h := (claim_C4_fc_forward ⟨ErrorCode.Success, ErrorCode.Success, ErrorCode.Success, true,
        ErrorCode.Success, ErrorCode.Success⟩
      ⟨fun _ => 0, 1, 1, 2, 3, true⟩ ⟨fun i => i + 1, 2, 1, 1, 3, true⟩
      ⟨fun i => if i < 2 then 1 else i, 2, 1, 1, 2, true⟩
      ⟨fun i => 10 * (i + 1), 2, 1, 1, 1, true⟩ rfl rfl rfl (fun _ => by decide)).1
      rfl 0 0 (by decide) (by decide)
  have e : (((0 : Nat) : Int) + ((0 : Nat) : Int)
      * (⟨fun i => if i < 2 then 1 else i, 2, 1, 1, 2, true⟩ : FCTensor).size) = (0 : Int) := by
    decide
  rw [e] at h
  exact h.trans (by decide)

/-- C5 counterexample: filter absent and the derInput slot absent (empty
tensor, buffer all zero), derOutput all 5 — the backward pass still
overwrites the absent derInput slot with a copy of derOutput, so its memory
is not left unchanged: the claim fails when the filter tensor is absent. -/
theorem claim_C5_counterexample :
    (fcBackward ⟨ErrorCode.Success, ErrorCode.Success, ErrorCode.Success, true,
        ErrorCode.Success, ErrorCode.Success⟩
      ⟨fun _ => 0, 1, 1, 1, 1, false⟩ ⟨fun _ => 0, 1, 1, 1, 1, false⟩
      ⟨fun _ => 0, 1, 1, 1, 1, false⟩ ⟨fun _ => 0, 1, 1, 1, 1, true⟩
      ⟨fun _ => 0, 1, 1, 1, 1, false⟩ ⟨fun _ => 5, 1, 1, 1, 1, true⟩).derInput 0 ≠ 0 := by
  decide

/-- C5 (amended, as forced by the counterexample): with successful
collaborator calls, when the filter is present each of derFilter and
derInput is computed exactly when its slot is present (an absent slot's
buffer is returned untouched) and independently of the other slots, and
derBias is computed exactly when present, independently of everything else;
when the filter is absent, derFilter is never computed and derInput is
unconditionally overwritten with a copy of derOutput — even when the
derInput slot is absent, contradicting the original "absent slot's memory is
left unchanged" for that combination. -/
theorem claim_C5_slots_amended (orc : BackwardOracle)
    (derInput derFilter derBias input filter derOutput : FCTensor)
    (h1 : orc.derFilterStatus = ErrorCode.Success)
    (h2 : orc.derInputStatus = ErrorCode.Success)
    (h3 : orc.allOnesOk = true) :
    (filter.present = true → derFilter.present = false →
        (fcBackward orc derInput derFilter derBias input filter derOutput).derFilter
          = derFilter.memory)
    ∧ (filter.present = true → derFilter.present = true →
        (fcBackward orc derInput derFilter derBias input filter derOutput).derFilter
          = gemmRun false true (filter.height * filter.width * filter.depth) filter.size
              input.size 1 input.memory (filter.height * filter.width * filter.depth)
              derOutput.memory filter.size 0 derFilter.memory
              (filter.height * filter.width * filter.depth))
    ∧ (filter.present = true → derInput.present = false →
        (fcBackward orc derInput derFilter derBias input filter derOutput).derInput
          = derInput.memory)
    ∧ (filter.present = true → derInput.present = true →
        (fcBackward orc derInput derFilter derBias input filter derOutput).derInput
          = gemmRun false false (filter.height * filter.width * filter.depth) input.size
              filter.size 1 filter.memory (filter.height * filter.width * filter.depth)
              derOutput.memory filter.size 0 derInput.memory
              (filter.height * filter.width * filter.depth))
    ∧ (filter.present = false →
        (fcBackward orc derInput derFilter derBias input filter derOutput).derInput
            = copyRun derInput.memory derOutput.memory (FCTensor.numElements derOutput)
          ∧ (fcBackward orc derInput derFilter derBias input filter derOutput).derFilter
            = derFilter.memory)
    ∧ (derBias.present = false →
        (fcBackward orc derInput derFilter derBias input filter derOutput).derBias
          = derBias.memory)
    ∧ (derBias.present = true →
        (fcBackward orc derInput derFilter derBias input filter derOutput).derBias
          = gemmRun false true 1 derOutput.depth derOutput.size 1 (fun _ => 1) 1
              derOutput.memory derOutput.depth 0 derBias.memory 1) := by
  refine ⟨?_, ?_, ?_, ?_, ?_, ?_, ?_⟩
  · intro hf hdf
    by_cases hdi : derInput.present = true <;> by_cases hdb : derBias.present = true <;>
      simp [fcBackward, fcBackwardInputStep, fcBackwardBias, hf, hdf, h1, h2, h3, hdi, hdb]
  · intro hf hdf
    by_cases hdi : derInput.present = true <;> by_cases hdb : derBias.present = true <;>
      simp [fcBackward, fcBackwardInputStep, fcBackwardBias, hf, hdf, h1, h2, h3, hdi, hdb]
  · intro hf hdi
    by_cases hdf : derFilter.present = true <;> by_cases hdb : derBias.present = true <;>
      simp [fcBackward, fcBackwardInputStep, fcBackwardBias, hf, hdf, h1, h2, h3, hdi, hdb]
  · intro hf hdi
    by_cases hdf : derFilter.present = true <;> by_cases hdb : derBias.present = true <;>
      simp [fcBackward, fcBackwardInputStep, fcBackwardBias, hf, hdf, h1, h2, h3, hdi, hdb]
  · intro hf
    by_cases hdb : derBias.present = true <;>
      simp [fcBackward, fcBackwardInputStep, fcBackwardBias, hf, h1, h2, h3, hdb]
  · intro hdb
    by_cases hf : filter.present = true <;> by_cases hdf : derFilter.present = true <;>
      by_cases hdi : derInput.present = true <;>
      simp [fcBackward, fcBackwardInputStep, fcBackwardBias, hf, hdf, hdi, h1, h2, h3, hdb]
  · intro hdb
    by_cases hf : filter.present = true <;> by_cases hdf : derFilter.present = true <;>
      by_cases hdi : derInput.present = true <;>
      simp [fcBackward, fcBackwardInputStep, fcBackwardBias, hf, hdf, hdi, h1, h2, h3, hdb]

/-- Witness for C5 (amended): the derBias slot of a concrete call equals the
1-row GEMM of the all-ones vector with derOutput. -/
theorem claim_C5_witness :
    (fcBackward ⟨ErrorCode.Success, ErrorCode.Success, ErrorCode.Success, true,
        ErrorCode.Success, ErrorCode.Success⟩
      ⟨fun _ => 0, 1, 1, 1, 1, false⟩ ⟨fun _ => 0, 1, 1, 1, 1, false⟩
      ⟨fun _ => 0, 1, 1, 2, 1, true⟩ ⟨fun i => i + 1, 2, 1, 1, 3, true⟩
      ⟨fun _ => 0, 1, 1, 1, 1, false⟩
      ⟨fun i => if i % 2 = 0 then 1 else 2, 1, 1, 2, 3, true⟩).derBias
      = gemmRun false true 1
          (⟨fun i => if i % 2 = 0 then 1 else 2, 1, 1, 2, 3, true⟩ : FCTensor).depth
          (⟨fun i => if i % 2 = 0 then 1 else 2, 1, 1, 2, 3, true⟩ : FCTensor).size 1
          (fun _ => 1) 1
          (⟨fun i => if i % 2 = 0 then 1 else 2, 1, 1, 2, 3, true⟩ : FCTensor).memory
          (⟨fun i => if i % 2 = 0 then 1 else 2, 1, 1, 2, 3, true⟩ : FCTensor).depth 0
          (⟨fun _ => 0, 1, 1, 2, 1, true⟩ : FCTensor).memory 1 :=
  (claim_C5_slots_amended ⟨ErrorCode.Success, ErrorCode.Success, ErrorCode.Success, true,
      ErrorCode.Success, ErrorCode.Success⟩
    ⟨fun _ => 0, 1, 1, 1, 1, false⟩ ⟨fun _ => 0, 1, 1, 1, 1, false⟩
    ⟨fun _ => 0, 1, 1, 2, 1, true⟩ ⟨fun i => i + 1, 2, 1, 1, 3, true⟩
    ⟨fun _ => 0, 1, 1, 1, 1, false⟩
    ⟨fun i => if i % 2 = 0 then 1 else 2, 1, 1, 2, 3, true⟩ rfl rfl rfl).2.2.2.2.2.2 rfl

/-- C6 counterexample: filter absent and derBias absent with the copy
primitive reporting OutOfMemory — the backward pass returns Success, not the
copy's error code: the copy call's status is discarded, refuting "every call
... has its returned status checked ... and returns that same error code
upward unchanged". -/
theorem claim_C6_counterexample :
    (fcBackward ⟨ErrorCode.Success, ErrorCode.Success, ErrorCode.OutOfMemory, true,
        ErrorCode.Success, ErrorCode.Success⟩
      ⟨fun _ => 0, 1, 1, 1, 1, true⟩ ⟨fun _ => 0, 1, 1, 1, 1, false⟩
      ⟨fun _ => 0, 1, 1, 1, 1, false⟩ ⟨fun _ => 0, 1, 1, 1, 1, true⟩
      ⟨fun _ => 0, 1, 1, 1, 1, false⟩ ⟨fun _ => 5, 1, 1, 1, 1, true⟩).status
      = ErrorCode.Success
    ∧ ErrorCode.Success ≠ ErrorCode.OutOfMemory := by
  decide

/-- C6 (amended, as forced by the counterexample): every matrix multiply,
matrix-vector multiply and all-ones request made by the fully-connected
operator has its result checked immediately after the call; on failure the
operator performs no further primitive calls and returns that status
unchanged. The element-wise copy is the exception the original claim misses:
the backward pass discards its status entirely (returning Success when the
bias step does not run), and the forward pass records it without checking
and proceeds to the bias step, so the copy's status is returned only when
bias is absent. -/
theorem claim_C6_status_amended (orc : ForwardOracle) (orcB : BackwardOracle)
    (output input filter bias derInput derFilter derBias input2 filter2 derOutput : FCTensor) :
    (filter.present = true → input.size = 1 → orc.gemvStatus ≠ ErrorCode.Success →
        (fcForward orc output input filter bias).1 = orc.gemvStatus
          ∧ (fcForward orc output input filter bias).2.2 = [FCCall.gemv])
    ∧ (filter.present = true → input.size ≠ 1 → orc.gemmStatus ≠ ErrorCode.Success →
        (fcForward orc output input filter bias).1 = orc.gemmStatus
          ∧ (fcForward orc output input filter bias).2.2 = [FCCall.gemm])
    ∧ (orc.gemvStatus = ErrorCode.Success → orc.gemmStatus = ErrorCode.Success →
        bias.present = true → orc.allOnesOk = false →
        (fcForward orc output input filter bias).1 = orc.lastError
          ∧ ((fcForward orc output input filter bias).2.2).getLast? = some FCCall.getAllOnes)
    ∧ (orc.gemvStatus = ErrorCode.Success → orc.gemmStatus = ErrorCode.Success →
        bias.present = true → orc.allOnesOk = true →
        (fcForward orc output input filter bias).1 = orc.biasGemmStatus)
    ∧ (filter.present = false → bias.present = false →
        (fcForward orc output input filter bias).1 = orc.copyStatus)
    ∧ (filter2.present = true → derFilter.present = true →
        orcB.derFilterStatus ≠ ErrorCode.Success →
        (fcBackward orcB derInput derFilter derBias input2 filter2 derOutput).status
            = orcB.derFilterStatus
          ∧ (fcBackward orcB derInput derFilter derBias input2 filter2 derOutput).calls
            = [FCCall.gemm])
    ∧ (filter2.present = true → derInput.present = true →
        orcB.derFilterStatus = ErrorCode.Success → orcB.derInputStatus ≠ ErrorCode.Success →
        (fcBackward orcB derInput derFilter derBias input2 filter2 derOutput).status
            = orcB.derInputStatus
          ∧ FCCall.getAllOnes ∉
            (fcBackward orcB derInput derFilter derBias input2 filter2 derOutput).calls)
    ∧ (orcB.derFilterStatus = ErrorCode.Success → orcB.derInputStatus = ErrorCode.Success →
        derBias.present = true → orcB.allOnesOk = false →
        (fcBackward orcB derInput derFilter derBias input2 filter2 derOutput).status
          = orcB.lastError)
    ∧ (orcB.derFilterStatus = ErrorCode.Success → orcB.derInputStatus = ErrorCode.Success →
        derBias.present = true → orcB.allOnesOk = true →
        (fcBackward orcB derInput derFilter derBias input2 filter2 derOutput).status
          = orcB.biasGemmStatus)
    ∧ (filter2.present = false → derBias.present = false →
        (fcBackward orcB derInput derFilter derBias input2 filter2 derOutput).status
          = ErrorCode.Success) := by
  refine ⟨?_, ?_, ?_, ?_, ?_, ?_, ?_, ?_, ?_, ?_⟩
  · intro hf hone hne
    constructor <;> simp [fcForward, hf, hone, hne]
  · intro hf hone hne
    constructor <;> simp [fcForward, hf, hone, hne]
  · intro hgv hgm hbp hao
    by_cases hf : filter.present = true
    · by_cases hone : input.size = 1 <;>
        constructor <;>
        simp [fcForward, fcForwardBias, hf, hone, hgv, hgm, hbp, hao]
    · constructor <;> simp [fcForward, fcForwardBias, hf, hbp, hao]
  · intro hgv hgm hbp hao
    by_cases hf : filter.present = true
    · by_cases hone : input.size = 1 <;>
        simp [fcForward, fcForwardBias, hf, hone, hgv, hgm, hbp, hao]
    · simp [fcForward, fcForwardBias, hf, hbp, hao]
  · intro hf hbp
    simp [fcForward, fcForwardBias, hf, hbp]
  · intro hf hdf hne
    constructor <;> simp [fcBackward, hf, hdf, hne]
  · intro hf hdi h1 hne
    by_cases hdf : derFilter.present = true <;>
      constructor <;>
      simp [fcBackward, fcBackwardInputStep, hf, hdf, hdi, h1, hne]
  · intro h1 h2 hbp hao
    by_cases hf : filter2.present = true
    · by_cases hdf : derFilter.present = true <;> by_cases hdi : derInput.present = true <;>
        simp [fcBackward, fcBackwardInputStep, fcBackwardBias, hf, hdf, hdi, h1, h2, hbp, hao]
    · simp [fcBackward, fcBackwardBias, hf, hbp, hao]
  · intro h1 h2 hbp hao
    by_cases hf : filter2.present = true
    · by_cases hdf : derFilter.present = true <;> by_cases hdi : derInput.present = true <;>
        simp [fcBackward, fcBackwardInputStep, fcBackwardBias, hf, hdf, hdi, h1, h2, hbp, hao]
    · simp [fcBackward, fcBackwardBias, hf, hbp, hao]
  · intro hf hbp
    simp [fcBackward, fcBackwardBias, hf, hbp]

/-- Witness for C6 (amended): a failing main GEMV in the forward pass
propagates its code and stops after one call. -/
theorem claim_C6_witness :
    (fcForward ⟨ErrorCode.BackendFailure, ErrorCode.Success, ErrorCode.Success, true,
        ErrorCode.Success, ErrorCode.Success⟩
      ⟨fun _ => 0, 1, 1, 2, 1, true⟩ ⟨fun i => i + 1, 2, 1, 1, 1, true⟩
      ⟨fun _ => 1, 2, 1, 1, 2, true⟩ ⟨fun _ => 0, 1, 1, 1, 1, false⟩).1
        = ErrorCode.BackendFailure
    ∧ (fcForward ⟨ErrorCode.BackendFailure, ErrorCode.Success, ErrorCode.Success, true,
        ErrorCode.Success, ErrorCode.Success⟩
      ⟨fun _ => 0, 1, 1, 2, 1, true⟩ ⟨fun i => i + 1, 2, 1, 1, 1, true⟩
      ⟨fun _ => 1, 2, 1, 1, 2, true⟩ ⟨fun _ => 0, 1, 1, 1, 1, false⟩).2.2 = [FCCall.gemv] :=
  (claim_C6_status_amended ⟨ErrorCode.BackendFailure, ErrorCode.Success, ErrorCode.Success, true,
      ErrorCode.Success, ErrorCode.Success⟩
    ⟨ErrorCode.Success, ErrorCode.Success, ErrorCode.Success, true,
      ErrorCode.Success, ErrorCode.Success⟩
    ⟨fun _ => 0, 1, 1, 2, 1, true⟩ ⟨fun i => i + 1, 2, 1, 1, 1, true⟩
    ⟨fun _ => 1, 2, 1, 1, 2, true⟩ ⟨fun _ => 0, 1, 1, 1, 1, false⟩
    ⟨fun _ => 0, 1, 1, 1, 1, false⟩ ⟨fun _ => 0, 1, 1, 1, 1, false⟩
    ⟨fun _ => 0, 1, 1, 1, 1, false⟩ ⟨fun _ => 0, 1, 1, 1, 1, false⟩
    ⟨fun _ => 0, 1, 1, 1, 1, false⟩ ⟨fun _ => 0, 1, 1, 1, 1, false⟩).1 rfl rfl (by decide)

/-- C7 counterexample: on derOutput `[[1,1,1],[2,2,2]]` (column-major, depth
2, size 3) the derBias slot is computed — correctly as `[3,6]` — but the
primitive call trace contains the general matrix multiply and no
matrix-vector multiply at all: the bias sum is not "computed via a
matrix-vector product" as the claim states. -/
theorem claim_C7_counterexample :
    (fcBackward ⟨ErrorCode.Success, ErrorCode.Success, ErrorCode.Success, true,
        ErrorCode.Success, ErrorCode.Success⟩
      ⟨fun _ => 0, 1, 1, 1, 1, false⟩ ⟨fun _ => 0, 1, 1, 1, 1, false⟩
      ⟨fun _ => 0, 1, 1, 2, 1, true⟩ ⟨fun i => i + 1, 2, 1, 1, 3, true⟩
      ⟨fun _ => 0, 1, 1, 1, 1, false⟩
      ⟨fun i => if i % 2 = 0 then 1 else 2, 1, 1, 2, 3, true⟩).derBias 0 = 3
    ∧ (fcBackward ⟨ErrorCode.Success, ErrorCode.Success, ErrorCode.Success, true,
        ErrorCode.Success, ErrorCode.Success⟩
      ⟨fun _ => 0, 1, 1, 1, 1, false⟩ ⟨fun _ => 0, 1, 1, 1, 1, false⟩
      ⟨fun _ => 0, 1, 1, 2, 1, true⟩ ⟨fun i => i + 1, 2, 1, 1, 3, true⟩
      ⟨fun _ => 0, 1, 1, 1, 1, false⟩
      ⟨fun i => if i % 2 = 0 then 1 else 2, 1, 1, 2, 3, true⟩).derBias 1 = 6
    ∧ FCCall.gemm ∈ (fcBackward ⟨ErrorCode.Success, ErrorCode.Success, ErrorCode.Success, true,
        ErrorCode.Success, ErrorCode.Success⟩
      ⟨fun _ => 0, 1, 1, 1, 1, false⟩ ⟨fun _ => 0, 1, 1, 1, 1, false⟩
      ⟨fun _ => 0, 1, 1, 2, 1, true⟩ ⟨fun i => i + 1, 2, 1, 1, 3, true⟩
      ⟨fun _ => 0, 1, 1, 1, 1, false⟩
      ⟨fun i => if i % 2 = 0 then 1 else 2, 1, 1, 2, 3, true⟩).calls
    ∧ FCCall.gemv ∉ (fcBackward ⟨ErrorCode.Success, ErrorCode.Success, ErrorCode.Success, true,
        ErrorCode.Success, ErrorCode.Success⟩
      ⟨fun _ => 0, 1, 1, 1, 1, false⟩ ⟨fun _ => 0, 1, 1, 1, 1, false⟩
      ⟨fun _ => 0, 1, 1, 2, 1, true⟩ ⟨fun i => i + 1, 2, 1, 1, 3, true⟩
      ⟨fun _ => 0, 1, 1, 1, 1, false⟩
      ⟨fun i => if i % 2 = 0 then 1 else 2, 1, 1, 2, 3, true⟩).calls := by
  decide

/-- C7 (amended, as forced by the counterexample): with the derBias slot
present and successful collaborator calls, the backward pass sets
`derBias[j]` to the sum of `derOutput[j, l]` over all batch columns `l`
(e.g. `[[1,1,1],[2,2,2]]` yields `[3,6]`), computed via the context's
all-ones buffer — but through the general matrix-matrix multiply with one
output row and the all-ones vector as the 1×n left operand, not through the
matrix-vector multiply primitive, which the backward pass never invokes. -/
theorem claim_C7_derBias_amended (orc : BackwardOracle)
    (derInput derFilter derBias input filter derOutput : FCTensor)
    (h1 : orc.derFilterStatus = ErrorCode.Success)
    (h2 : orc.derInputStatus = ErrorCode.Success)
    (h3 : orc.allOnesOk = true) (hp : derBias.present = true) :
    (∀ j : Nat, (j : Int) < derOutput.depth →
      (fcBackward orc derInput derFilter derBias input filter derOutput).derBias (j : Int)
        = (Finset.range derOutput.size.toNat).sum
            (fun l : Nat => derOutput.memory ((j : Int) + (l : Int) * derOutput.depth)))
    ∧ FCCall.gemm ∈ (fcBackward orc derInput derFilter derBias input filter derOutput).calls
    ∧ FCCall.getAllOnes ∈
        (fcBackward orc derInput derFilter derBias input filter derOutput).calls
    ∧ FCCall.gemv ∉ (fcBackward orc derInput derFilter derBias input filter derOutput).calls := by
  have hbias : (fcBackward orc derInput derFilter derBias input filter derOutput).derBias
      = gemmRun false true 1 derOutput.depth derOutput.size 1 (fun _ => 1) 1
          derOutput.memory derOutput.depth 0 derBias.memory 1 := by
    by_cases hf : filter.present = true <;> by_cases hdf : derFilter.present = true <;>
      by_cases hdi : derInput.present = true <;>
      simp [fcBackward, fcBackwardInputStep, fcBackwardBias, hf, hdf, hdi, h1, h2, h3, hp]
  refine ⟨?_, ?_, ?_, ?_⟩
  · intro j hj
    rw [hbias]
    simp only [gemmRun]
    rw [if_pos ⟨by omega, Int.natCast_nonneg j, by rw [Int.emod_one]; omega,
      by rw [Int.ediv_one]; exact hj⟩]
    rw [Int.emod_one, Int.ediv_one]
    simp only [opEl, Bool.false_eq_true, if_false, if_true, one_mul, mul_one, zero_mul,
      add_zero, zero_add, mul_zero]
  · by_cases hf : filter.present = true <;> by_cases hdf : derFilter.present = true <;>
      by_cases hdi : derInput.present = true <;>
      simp [fcBackward, fcBackwardInputStep, fcBackwardBias, hf, hdf, hdi, h1, h2, h3, hp]
  · by_cases hf : filter.present = true <;> by_cases hdf : derFilter.present = true <;>
      by_cases hdi : derInput.present = true <;>
      simp [fcBackward, fcBackwardInputStep, fcBackwardBias, hf, hdf, hdi, h1, h2, h3, hp]
  · by_cases hf : filter.present = true <;> by_cases hdf : derFilter.present = true <;>
      by_cases hdi : derInput.present = true <;>
      simp [fcBackward, fcBackwardInputStep, fcBackwardBias, hf, hdf, hdi, h1, h2, h3, hp]

/-- Witness for C7 (amended) on derOutput `[[1,1,1],[2,2,2]]`: derBias[0]
equals the batch row sum 3. -/
theorem claim_C7_witness :
    (fcBackward ⟨ErrorCode.Success, ErrorCode.Success, ErrorCode.Success, true,
        ErrorCode.Success, ErrorCode.Success⟩
      ⟨fun _ => 0, 1, 1, 1, 1, false⟩ ⟨fun _ => 0, 1, 1, 1, 1, false⟩
      ⟨fun _ => 0, 1, 1, 2, 1, true⟩ ⟨fun i => i + 1, 2, 1, 1, 3, true⟩
      ⟨fun _ => 0, 1, 1, 1, 1, false⟩
      ⟨fun i => if i % 2 = 0 then 1 else 2, 1, 1, 2, 3, true⟩).derBias 0 = 3 := by
  have h := (claim_C7_derBias_amended ⟨ErrorCode.Success, ErrorCode.Success, ErrorCode.Success,
      true, ErrorCode.Success, ErrorCode.Success⟩
    ⟨fun _ => 0, 1, 1, 1, 1, false⟩ ⟨fun _ => 0, 1, 1, 1, 1, false⟩
    ⟨fun _ => 0, 1, 1, 2, 1, true⟩ ⟨fun i => i + 1, 2, 1, 1, 3, true⟩
    ⟨fun _ => 0, 1, 1, 1, 1, false⟩
    ⟨fun i => if i % 2 = 0 then 1 else 2, 1, 1, 2, 3, true⟩ rfl rfl rfl rfl).1 0 (by decide)
  have e : (((0 : Nat) : Int)) = (0 : Int) := by decide
  rw [e] at h
  exact h.trans (by decide)
